import Mathlib

/-!
The program doremi: note-to-waveform synthesis and the wave file writer.

A shallow embedding of `doremi.c`.

Conventions of the embedding.

* `int` and `char` values are integers (`ℤ`); a `char` is its character code
  (`'A'` is 65, `'G'` is 71, `'b'` is 98, `' '` is 32, `'#'` is 35).  Signed
  `int` overflow, and a `double` too large to convert to `int`, are undefined
  in C and only arise for octaves or sample counts beyond `2^31`; `int` is
  unbounded here.
* `short` values are integers of the range −32768 .. 32767.
* `double` values are rationals (`ℚ`).  Where a `double` is converted to an
  `int` (the note timing of lines 189 to 194, `samples_total`, `volume`), each
  product and sum is rounded to the nearest `double` first (`roundDouble`, 53
  significant bits, ties to even), and a decimal literal of the score is the
  `double` nearest to it, since there the rounding decides the integer.
  Elsewhere (pitch, sample values, the mix) the arithmetic is exact and no
  rounding error is modelled.  A `double` that is not finite (the result of
  a division by zero) has no rational value and is `none`; the exponent range
  of a `double` is not modelled.
* Undefined behaviour (an out-of-bounds array access, or the conversion to
  `short` of a `double` whose integral part is not a `short`) is `none`.
* `sin` is the C library's and is a parameter `sinF`; where a theorem needs a
  value of it, the theorem states what it assumes (`sin 0 = 0`, values in
  [−1, 1], or a distance to the real sine).
* A file is its sequence of bytes and a position. A `struct wavfile_header` is
  44 bytes without padding, an `int` is 4 bytes and a `short` 2 bytes, least
  significant byte first (the layout of a wave file); in `wavfile_close` the
  conversions to `int` reduce modulo `2^32`.
* The example notes use times that are binary fractions, which are `double`s,
  unless the example is about the rounding of a decimal.
-/

namespace Doremi

/-! ## Constants -/

/-- `static const int WAVFILE_SAMPLES_PER_SECOND = 44100;` -/
def WAVFILE_SAMPLES_PER_SECOND : ℤ := 44100

/-- `static const int VOLUME_MAX = 32768;` -/
def VOLUME_MAX : ℤ := 32768

/-- `#define M_PI 3.14159265358979323846` -/
def M_PI : ℚ := 314159265358979323846 / 100000000000000000000

/-- `static const double SEMITONE_RATIO = 1.059463;` -/
def SEMITONE_RATIO : ℚ := 1059463 / 1000000

/-- `static const int SEMITONES_PER_OCTAVE = 12;` -/
def SEMITONES_PER_OCTAVE : ℤ := 12

/-- `static const int SEMITONE_SCALE [] = { 0, 2, 3, 5, 7, 8, 10 };` -/
def SEMITONE_SCALE : List ℤ := [0, 2, 3, 5, 7, 8, 10]

/-! ## Pitch -/

/-- `int note_ctoi (char c)`: `c - 65` when `c > 64 && c < 72`, else `-1`. -/
def note_ctoi (c : ℤ) : ℤ :=
  if c > 64 ∧ c < 72 then c - 65 else -1

/-- `int accidental_ctoi(char c)`: the `switch` on `'b'`, `' '`, `'#'`. -/
def accidental_ctoi (c : ℤ) : ℤ :=
  if c = 98 then -1
  else if c = 32 then 0
  else if c = 35 then 1
  else -2

/-- `struct note`. -/
structure Note where
  begin : ℚ
  octave : ℤ
  name : ℤ
  accidental : ℤ
  duration : ℚ
  attack : ℚ
  decay : ℚ
deriving DecidableEq, Repr

/-- Reading `arr[idx]` for an `int` index: defined only inside the array. -/
def readAt (arr : List ℤ) (idx : ℤ) : Option ℤ :=
  if 0 ≤ idx then arr.get? idx.toNat else none

/-- `double get_freq( struct note n )`. -/
def get_freq (n : Note) : Option ℚ :=
  let freq_base : ℚ := 440
  let oct_base : ℤ := 4
  let oct_offset : ℤ := n.octave - oct_base
  (readAt SEMITONE_SCALE (note_ctoi n.name)).map fun scale =>
    let semitone_offset : ℤ := oct_offset * SEMITONES_PER_OCTAVE + scale
    let semitone_offset : ℤ := semitone_offset + accidental_ctoi n.accidental
    freq_base * SEMITONE_RATIO ^ semitone_offset

/-! ### The pitch table as the specification words it -/

/-- The 7-entry table of the specification: A=0, B=2, C=3, D=5, E=7, F=8, G=10. -/
def specTable (letter : ℤ) : ℤ :=
  if letter = 65 then 0
  else if letter = 66 then 2
  else if letter = 67 then 3
  else if letter = 68 then 5
  else if letter = 69 then 7
  else if letter = 70 then 8
  else 10

/-- The accidental delta of the specification: −1 flat, 0 natural, +1 sharp. -/
def specDelta (accidental : ℤ) : ℤ :=
  if accidental = 98 then -1
  else if accidental = 32 then 0
  else 1

/-- Total semitone offset of the specification. -/
def specOffset (n : Note) : ℤ :=
  (n.octave - 4) * 12 + specTable n.name + specDelta n.accidental

/-! ## Conversions between C number types -/

/-- Conversion of a `double` to `int`: the fractional part is discarded
(truncation toward zero). -/
def toInt (x : ℚ) : ℤ :=
  if 0 ≤ x then ⌊x⌋ else ⌈x⌉

/-- Conversion of a `double` to `short`: the fractional part is discarded; the
behaviour is undefined when the integral part is not a `short`. -/
def toShort (x : ℚ) : Option ℤ :=
  let t := toInt x
  if -32768 ≤ t ∧ t ≤ 32767 then some t else none

/-- Conversion of an `int` to `short` (reduction modulo `2^16`). -/
def intToShort (v : ℤ) : ℤ :=
  (v + 32768) % 65536 - 32768

/-- Division of two `double`s: finite exactly when the divisor is not zero. -/
def fdiv (a b : ℚ) : Option ℚ :=
  if b = 0 then none else some (a / b)

/-! ## Double-precision rounding -/

/-- Rounding of a rational to the nearest integer, a tie going to the even one. -/
def roundHalfEven (x : ℚ) : ℤ :=
  let f := ⌊x⌋
  let r := x - (f : ℚ)
  if r < 1 / 2 then f
  else if 1 / 2 < r then f + 1
  else if f % 2 = 0 then f else f + 1

/-- The `double` nearest to a rational: 53 significant bits, a tie going to the
even significand. The exponent range is not modelled. -/
def roundDouble (x : ℚ) : ℚ :=
  if x = 0 then 0
  else
    let q : ℤ := Int.log 2 |x| - 52
    (roundHalfEven (x / (2 : ℚ) ^ q) : ℚ) * (2 : ℚ) ^ q

/-- The product of two `double`s. -/
def fmul (a b : ℚ) : ℚ :=
  roundDouble (a * b)

/-- The sum of two `double`s. -/
def fadd (a b : ℚ) : ℚ :=
  roundDouble (a + b)

/-! ## Note timing (lines 189 to 194 of `main`) -/

/-- `note_start = n.begin * wsps;` -/
def note_start (n : Note) : ℤ :=
  toInt (fmul n.begin (WAVFILE_SAMPLES_PER_SECOND : ℚ))

/-- `note_finish = note_start + n.duration * wsps;` (the sum is a `double`). -/
def note_finish (n : Note) : ℤ :=
  toInt (fadd (note_start n : ℚ) (fmul n.duration (WAVFILE_SAMPLES_PER_SECOND : ℚ)))

/-- `decay_duration = n.decay * wsps;` -/
def decay_duration (n : Note) : ℤ :=
  toInt (fmul n.decay (WAVFILE_SAMPLES_PER_SECOND : ℚ))

/-- `decay_start = note_finish - decay_duration;` -/
def decay_start (n : Note) : ℤ :=
  note_finish n - decay_duration n

/-- `attack_duration = n.attack * wsps;` -/
def attack_duration (n : Note) : ℤ :=
  toInt (fmul n.attack (WAVFILE_SAMPLES_PER_SECOND : ℚ))

/-- `attack_finish = note_start + attack_duration;` -/
def attack_finish (n : Note) : ℤ :=
  note_start n + attack_duration n

/-! ## The body of the sample loop (lines 199 to 222 of `main`) -/

/-- The three envelope phases, one per branch of the loop body. -/
inductive Phase
  | Attack
  | Decay
  | Sustain
deriving DecidableEq, Repr

/-- The branch of the loop body taken at a sample, with the two operands of the
factor division that the branch performs (`num / den`). -/
inductive Branch
  | attack (num den : ℤ)
  | decay (num den : ℤ)
  | sustain
deriving DecidableEq, Repr

/-- The `if` / `else if` / `else` of lines 204, 209 and 215, with the operands
of lines 205 and 211. -/
def branch (n : Note) (i : ℤ) : Branch :=
  if n.attack > 0 ∧ i ≤ attack_finish n then
    Branch.attack (i - note_start n) (attack_duration n)
  else if n.decay > 0 ∧ i ≥ decay_start n then
    Branch.decay (note_finish n - i) (decay_duration n)
  else
    Branch.sustain

/-- The phase a branch stands for. -/
def Branch.phase : Branch → Phase
  | Branch.attack _ _ => Phase.Attack
  | Branch.decay _ _ => Phase.Decay
  | Branch.sustain => Phase.Sustain

/-- The divisor of the factor division a branch performs, if it performs one. -/
def Branch.divisor : Branch → Option ℤ
  | Branch.attack _ den => some den
  | Branch.decay _ den => some den
  | Branch.sustain => none

/-- The value of `attack_factor` (line 205) or `decay_factor` (line 211): `none`
when the division is by zero, and in the sustain branch, which computes none. -/
def Branch.factor : Branch → Option ℚ
  | Branch.attack num den => fdiv (num : ℚ) (den : ℚ)
  | Branch.decay num den => fdiv (num : ℚ) (den : ℚ)
  | Branch.sustain => none

/-- The phase of sample `i` of note `n`. -/
def phase (n : Note) (i : ℤ) : Phase :=
  (branch n i).phase

/-- The `double` on the right-hand side of the assignment to `waveform[i]`
(lines 206 to 208, 212 to 214, and 217), from the stored sample `existing`
and the new sample `sample`. -/
def mix (existing : ℤ) (sample : ℚ) (b : Branch) : Option ℚ :=
  match b with
  | Branch.attack _ _ =>
    b.factor.map fun attack_factor =>
      let sample := sample * attack_factor
      ((existing : ℚ) + sample) * (95 / 100 - 5 / 10 * attack_factor)
  | Branch.decay _ _ =>
    b.factor.map fun decay_factor =>
      let sample := sample * decay_factor
      ((existing : ℚ) + sample) * (95 / 100 - 5 / 10 * decay_factor)
  | Branch.sustain =>
    some (((existing : ℚ) + sample) * (5 / 10))

/-- The two `if`s of lines 220 and 221, on the stored `short`. -/
def normalize (w : ℤ) : ℤ :=
  let w := if w > VOLUME_MAX then intToShort VOLUME_MAX else w
  if w < -1 * VOLUME_MAX then intToShort (-1 * VOLUME_MAX) else w

/-- One iteration of the loop body at sample `i` of note `n`: the new content of
`waveform[i]`, from its old content `existing` and the new sample. -/
def writeSample (n : Note) (i : ℤ) (existing : ℤ) (sample : ℚ) : Option ℤ :=
  (mix existing sample (branch n i)).bind fun v =>
    (toShort v).map normalize

/-- Lines 201 and 202: `t = (double) i / wsps; sample = volume * sin(frequency * t * 2 * M_PI)`. -/
def newSample (sinF : ℚ → ℚ) (volume : ℤ) (frequency : ℚ) (i : ℤ) : ℚ :=
  let t : ℚ := (i : ℚ) / (WAVFILE_SAMPLES_PER_SECOND : ℚ)
  (volume : ℚ) * sinF (frequency * t * 2 * M_PI)

/-! ## The loops of `main` -/

/-- Writing `arr[idx] = v` for an `int` index: defined only inside the array. -/
def writeAt (arr : List ℤ) (idx : ℤ) (v : ℤ) : Option (List ℤ) :=
  if 0 ≤ idx ∧ idx < (arr.length : ℤ) then some (arr.set idx.toNat v) else none

/-- The indices `for (i = note_start; i < note_finish; i++)` visits, in order. -/
def loopIndices (n : Note) : List ℤ :=
  (List.range (note_finish n - note_start n).toNat).map fun (k : ℕ) => note_start n + (k : ℤ)

/-- One iteration of the sample loop on the whole waveform. -/
def renderSample (sinF : ℚ → ℚ) (volume : ℤ) (n : Note) (frequency : ℚ)
    (waveform : List ℤ) (i : ℤ) : Option (List ℤ) :=
  (readAt waveform i).bind fun existing =>
    (writeSample n i existing (newSample sinF volume frequency i)).bind fun w =>
      writeAt waveform i w

/-- One iteration of the note loop (lines 186 to 223). -/
def renderNote (sinF : ℚ → ℚ) (volume : ℤ) (waveform : List ℤ) (n : Note) :
    Option (List ℤ) :=
  (get_freq n).bind fun frequency =>
    (loopIndices n).foldlM (renderSample sinF volume n frequency) waveform

/-- `int samples_total = wsps * total_duration;` -/
def samples_total (total_duration : ℚ) : ℤ :=
  toInt (fmul (WAVFILE_SAMPLES_PER_SECOND : ℚ) total_duration)

/-- `int volume = VOLUME_MAX * .95;` -/
def volume : ℤ :=
  toInt (fmul (VOLUME_MAX : ℚ) (roundDouble (95 / 100)))

/-- The waveform after lines 182 to 223, for a score and a total duration. -/
def render (sinF : ℚ → ℚ) (total_duration : ℚ) (score : List Note) : Option (List ℤ) :=
  score.foldlM (renderNote sinF volume) (List.replicate (samples_total total_duration).toNat 0)

/-- `double total_duration = 5.0;` -/
def total_duration : ℚ := 5

/-- `struct note notes [NUM_NOTES]`, the hardcoded score; each decimal literal is
the `double` nearest to it. -/
def notes : List Note :=
  [ { begin := roundDouble 0, name := 67, accidental := 32, octave := 3,
      duration := roundDouble 1, attack := roundDouble (1 / 10), decay := roundDouble (5 / 10) },
    { begin := roundDouble (25 / 100), name := 68, accidental := 32, octave := 3,
      duration := roundDouble 1, attack := roundDouble (1 / 10), decay := roundDouble (5 / 10) },
    { begin := roundDouble (50 / 100), name := 69, accidental := 98, octave := 3,
      duration := roundDouble 1, attack := roundDouble (1 / 10), decay := roundDouble (5 / 10) },
    { begin := roundDouble (75 / 100), name := 70, accidental := 32, octave := 3,
      duration := roundDouble 1, attack := roundDouble (1 / 10), decay := roundDouble (5 / 10) },
    { begin := roundDouble 1, name := 71, accidental := 32, octave := 3,
      duration := roundDouble 1, attack := roundDouble (1 / 10), decay := roundDouble (5 / 10) },
    { begin := roundDouble (125 / 100), name := 65, accidental := 98, octave := 4,
      duration := roundDouble 1, attack := roundDouble (1 / 10), decay := roundDouble (5 / 10) },
    { begin := roundDouble (150 / 100), name := 66, accidental := 98, octave := 4,
      duration := roundDouble 1, attack := roundDouble (1 / 10), decay := roundDouble (5 / 10) },
    { begin := roundDouble (175 / 100), name := 67, accidental := 32, octave := 4,
      duration := roundDouble 1, attack := roundDouble (1 / 10), decay := roundDouble (5 / 10) },
    { begin := roundDouble (250 / 100), name := 67, accidental := 32, octave := 3,
      duration := roundDouble 2, attack := roundDouble (1 / 10), decay := roundDouble 1 },
    { begin := roundDouble (255 / 100), name := 71, accidental := 32, octave := 3,
      duration := roundDouble 2, attack := roundDouble (1 / 10), decay := roundDouble 1 },
    { begin := roundDouble (260 / 100), name := 67, accidental := 32, octave := 4,
      duration := roundDouble 2, attack := roundDouble (1 / 10), decay := roundDouble 1 } ]

/-- `main`'s waveform, as handed to `wavfile_write`. -/
def mainWaveform (sinF : ℚ → ℚ) : Option (List ℤ) :=
  render sinF total_duration notes

/-! ### The mix as the specification words it -/

/-- The gentle mix of lines 208 and 214, as the specification writes it. -/
def gentleMix (existing s f : ℚ) : ℚ :=
  (existing + s * f) * (95 / 100 - 1 / 2 * f)

/-- The straight average of line 217, as the specification writes it. -/
def averageMix (existing s : ℚ) : ℚ :=
  (existing + s) * (1 / 2)

/-! ## Notes used as examples -/

/-- The note A, natural, in the given octave (timing fields are irrelevant to pitch). -/
def noteA (octave : ℤ) : Note :=
  { begin := 0, octave := octave, name := 65, accidental := 32, duration := 1, attack := 0, decay := 0 }

/-- The note C in octave 3 with the given accidental. -/
def noteC3 (accidental : ℤ) : Note :=
  { begin := 0, octave := 3, name := 67, accidental := accidental, duration := 1, attack := 0, decay := 0 }

/-- A ten-sample note (1/4096 s) whose attack and decay windows, eight samples
each (3/16384 s), overlap on the samples 2 to 8. -/
def overlapNote : Note :=
  { begin := 0, octave := 4, name := 65, accidental := 32,
    duration := 1 / 4096, attack := 3 / 16384, decay := 3 / 16384 }

/-- A note with a ten-sample attack (1/4096 s), so that sample 2 has attack
factor 0.2. -/
def attackNote : Note :=
  { begin := 0, octave := 4, name := 65, accidental := 32,
    duration := 1, attack := 1 / 4096, decay := 0 }

/-- A note that begins 1/65536 s into the waveform: 0.67 of a sample. -/
def lateNote : Note :=
  { begin := 1 / 65536, octave := 4, name := 65, accidental := 32,
    duration := 1, attack := 0, decay := 0 }

/-- A note that satisfies the data model, with an attack of 1/65536 s: shorter
than one sample. -/
def clickNote : Note :=
  { begin := 0, octave := 4, name := 65, accidental := 32,
    duration := 1, attack := 1 / 65536, decay := 0 }

/-- The note A in octave 4 with the accidental character `'x'` (120), which is
none of `'b'`, `' '`, `'#'`. -/
def oddAccidentalNote : Note :=
  { begin := 0, octave := 4, name := 65, accidental := 120, duration := 1, attack := 0, decay := 0 }

/-- A note with no attack and no decay, one second long. -/
def plainNote : Note :=
  { begin := 0, octave := 4, name := 65, accidental := 32, duration := 1, attack := 0, decay := 0 }

/-- A note with the timing of the first note of the score: attack 0.1 s, decay
0.5 s, duration 1.0 s. -/
def scoreNote : Note :=
  { begin := 0, octave := 3, name := 67, accidental := 32,
    duration := 1, attack := roundDouble (1 / 10), decay := roundDouble (5 / 10) }

/-- A note of two samples (1/16384 s) with no attack and no decay. -/
def tinyNote : Note :=
  { begin := 0, octave := 4, name := 65, accidental := 32,
    duration := 1 / 16384, attack := 0, decay := 0 }

/-- A note of one sample (1/32768 s) with no attack and no decay. -/
def sustainBlip : Note :=
  { begin := 0, octave := 4, name := 65, accidental := 32,
    duration := 1 / 32768, attack := 0, decay := 0 }

/-- A note of one sample (1/32768 s) whose attack lasts the whole note. -/
def attackBlip : Note :=
  { begin := 0, octave := 4, name := 65, accidental := 32,
    duration := 1 / 32768, attack := 1 / 32768, decay := 0 }

/-- A note whose attack lasts two samples (1/16384 s). -/
def rampNote : Note :=
  { begin := 0, octave := 4, name := 65, accidental := 32,
    duration := 1, attack := 1 / 16384, decay := 0 }

/-- A note that begins at 0.12 s and lasts 0.58 s; each decimal is the `double`
nearest to it. It ends at `edgeTotal`, exactly. -/
def edgeNote : Note :=
  { begin := roundDouble (12 / 100), octave := 4, name := 65, accidental := 32,
    duration := roundDouble (58 / 100), attack := 0, decay := 0 }

/-- A total duration of 0.7 s, the `double` nearest to the decimal. -/
def edgeTotal : ℚ :=
  roundDouble (7 / 10)

/-- A note that begins at 0.3 s, the `double` nearest to the decimal. -/
def tenthsNote : Note :=
  { begin := roundDouble (3 / 10), octave := 4, name := 65, accidental := 32,
    duration := 1, attack := 0, decay := 0 }

/-- A note that begins at 2.5 s and lasts 0.7 s, the `double` nearest to the
decimal. -/
def driftNote : Note :=
  { begin := 5 / 2, octave := 4, name := 65, accidental := 32,
    duration := roundDouble (7 / 10), attack := 0, decay := 0 }

/-! ## The wave file writer (lines 20 to 91) -/

/-- A stream opened with `fopen`: the bytes of the file and the file position. -/
structure File where
  bytes : List ℕ
  pos : ℕ
deriving DecidableEq, Repr

/-- `struct wavfile_header`; a tag is its four characters. -/
structure wavfile_header where
  riff_tag : List ℕ
  riff_length : ℤ
  wave_tag : List ℕ
  fmt_tag : List ℕ
  fmt_length : ℤ
  audio_format : ℤ
  num_channels : ℤ
  sample_rate : ℤ
  byte_rate : ℤ
  block_align : ℤ
  bits_per_sample : ℤ
  data_tag : List ℕ
  data_length : ℤ
deriving DecidableEq, Repr

/-- Conversion to the 32-bit `int` of a value of a wider integer type
(reduction modulo `2^32`). -/
def toInt32 (v : ℤ) : ℤ :=
  (v + 2147483648) % 4294967296 - 2147483648

/-- Conversion to the 16-bit `short` of a value of a wider integer type. -/
def toInt16 (v : ℤ) : ℤ :=
  (v + 32768) % 65536 - 32768

/-- The four bytes of an `int` in memory, least significant first. -/
def int32Bytes (v : ℤ) : List ℕ :=
  [(v % 256).toNat, (v / 256 % 256).toNat, (v / 65536 % 256).toNat, (v / 16777216 % 256).toNat]

/-- The two bytes of a `short` in memory, least significant first. -/
def int16Bytes (v : ℤ) : List ℕ :=
  [(v % 256).toNat, (v / 256 % 256).toNat]

/-- The bytes of an array of `short`. -/
def shortsBytes : List ℤ → List ℕ
  | [] => []
  | x :: xs => int16Bytes x ++ shortsBytes xs

/-- The 44 bytes of a `struct wavfile_header` in memory (no padding). -/
def headerBytes (h : wavfile_header) : List ℕ :=
  h.riff_tag ++ int32Bytes h.riff_length ++ h.wave_tag ++ h.fmt_tag ++
    int32Bytes h.fmt_length ++ int16Bytes h.audio_format ++ int16Bytes h.num_channels ++
    int32Bytes h.sample_rate ++ int32Bytes h.byte_rate ++ int16Bytes h.block_align ++
    int16Bytes h.bits_per_sample ++ h.data_tag ++ int32Bytes h.data_length

/-- `sizeof(struct wavfile_header)`. -/
def sizeof_header : ℕ := 44

/-- `fwrite` of a byte sequence at the file position: the bytes replace those at
the position and extend the file past its end (after a gap of zero bytes when
the position is past the end). -/
def fwrite (f : File) (bs : List ℕ) : File :=
  { bytes := f.bytes.take f.pos ++ List.replicate (f.pos - f.bytes.length) 0 ++ bs ++
      f.bytes.drop (f.pos + bs.length),
    pos := f.pos + bs.length }

/-- `fseek( file, offset, SEEK_SET )`. -/
def fseek (f : File) (offset : ℕ) : File :=
  { f with pos := offset }

/-- `ftell( file )`. -/
def ftell (f : File) : ℤ :=
  (f.pos : ℤ)

/-- `FILE * wavfile_open( const char *filename )`; `opened` tells whether `fopen`
succeeds. The result is `none` for the null pointer. -/
def wavfile_open (opened : Bool) : Option File :=
  let samples_per_second : ℤ := WAVFILE_SAMPLES_PER_SECOND
  let bits_per_sample : ℤ := 16
  let header : wavfile_header :=
    { riff_tag := [82, 73, 70, 70]
      wave_tag := [87, 65, 86, 69]
      fmt_tag := [102, 109, 116, 32]
      data_tag := [100, 97, 116, 97]
      riff_length := 0
      fmt_length := 16
      audio_format := 1
      num_channels := 1
      sample_rate := samples_per_second
      byte_rate := samples_per_second * (bits_per_sample / 8)
      block_align := bits_per_sample / 8
      bits_per_sample := bits_per_sample
      data_length := 0 }
  if opened then some (fwrite { bytes := [], pos := 0 } (headerBytes header)) else none

/-- `void wavfile_write( FILE * file, short data[], int length )`: undefined
when `length` is negative or exceeds the array. -/
def wavfile_write (file : File) (data : List ℤ) (length : ℤ) : Option File :=
  if 0 ≤ length ∧ length ≤ (data.length : ℤ) then
    some (fwrite file (shortsBytes (data.take length.toNat)))
  else none

/-- Line 73 of `wavfile_close`: `int file_length = ftell( file );`, the `long`
converted to `int`. -/
def close_file_length (file : File) : ℤ :=
  toInt32 (ftell file)

/-- Line 78 of `wavfile_close`:
`int data_length = file_length - sizeof( struct wavfile_header );`, an unsigned
subtraction converted back to `int`. -/
def close_data_length (file : File) : ℤ :=
  toInt32 (close_file_length file - (sizeof_header : ℤ))

/-- Line 86 of `wavfile_close`: `int riff_length = file_length - 8;`, a signed
`int` subtraction. -/
def close_riff_length (file : File) : ℤ :=
  close_file_length file - 8

/-- `void wavfile_close( FILE * file )`: the file as it is closed; undefined when
the signed subtraction of line 86 overflows. -/
def wavfile_close (file : File) : Option File :=
  let data_length : ℤ := close_data_length file
  let written := fwrite (fseek file (sizeof_header - 4)) (int32Bytes data_length)
  let riff_length : ℤ := close_riff_length file
  if -2147483648 ≤ riff_length then
    some (fwrite (fseek written 4) (int32Bytes riff_length))
  else none

/-- The `int` stored in the four bytes at an offset of a byte sequence. -/
def readInt32 (bs : List ℕ) (offset : ℕ) : ℤ :=
  match bs.drop offset with
  | b0 :: b1 :: b2 :: b3 :: _ =>
    toInt32 ((b0 : ℤ) + 256 * (b1 : ℤ) + 65536 * (b2 : ℤ) + 16777216 * (b3 : ℤ))
  | _ => 0

/-- The `short` stored in the two bytes at an offset of a byte sequence. -/
def readInt16 (bs : List ℕ) (offset : ℕ) : ℤ :=
  match bs.drop offset with
  | b0 :: b1 :: _ => toInt16 ((b0 : ℤ) + 256 * (b1 : ℤ))
  | _ => 0

/-- The header at the start of a file, field by field. -/
def readHeader (bs : List ℕ) : wavfile_header :=
  { riff_tag := bs.take 4
    riff_length := readInt32 bs 4
    wave_tag := (bs.drop 8).take 4
    fmt_tag := (bs.drop 12).take 4
    fmt_length := readInt32 bs 16
    audio_format := readInt16 bs 20
    num_channels := readInt16 bs 22
    sample_rate := readInt32 bs 24
    byte_rate := readInt32 bs 28
    block_align := readInt16 bs 32
    bits_per_sample := readInt16 bs 34
    data_tag := (bs.drop 36).take 4
    data_length := readInt32 bs 40 }

/-- A session with the file writer: `wavfile_open`, one `wavfile_write` of
`length` samples of `data`, and `wavfile_close`. -/
def wavSession (data : List ℤ) (length : ℤ) : Option File :=
  (wavfile_open true).bind fun f => (wavfile_write f data length).bind wavfile_close

/-- The bytes of the header as `wavfile_open` writes it. -/
def openedBytes : List ℕ :=
  [82, 73, 70, 70, 0, 0, 0, 0, 87, 65, 86, 69, 102, 109, 116, 32, 16, 0, 0, 0,
    1, 0, 1, 0, 68, 172, 0, 0, 136, 88, 1, 0, 2, 0, 16, 0, 100, 97, 116, 97, 0, 0, 0, 0]

/-- The bytes of a closed file: the header with the two lengths, and the data. -/
def closedBytes (rl dl : ℤ) (D : List ℕ) : List ℕ :=
  [82, 73, 70, 70] ++ int32Bytes rl ++
    [87, 65, 86, 69, 102, 109, 116, 32, 16, 0, 0, 0,
      1, 0, 1, 0, 68, 172, 0, 0, 136, 88, 1, 0, 2, 0, 16, 0, 100, 97, 116, 97] ++
    int32Bytes dl ++ D

/-! ## Theorems: double-precision rounding -/

theorem roundHalfEven_intCast (m : ℤ) : roundHalfEven (m : ℚ) = m := by
  simp [roundHalfEven]

theorem roundHalfEven_error (x : ℚ) : |(roundHalfEven x : ℚ) - x| ≤ 1 / 2 := by
  have h1 := Int.floor_le x
  have h2 := Int.lt_floor_add_one x
  unfold roundHalfEven
  simp only
  split_ifs with a b c
  · rw [abs_le]; constructor <;> linarith
  · rw [abs_le]; push_cast; constructor <;> linarith
  · rw [abs_le]; constructor <;> linarith
  · rw [abs_le]; push_cast; constructor <;> linarith

theorem roundHalfEven_nonneg (x : ℚ) (h : 0 ≤ x) : 0 ≤ roundHalfEven x := by
  have h0 : 0 ≤ ⌊x⌋ := Int.floor_nonneg.mpr h
  unfold roundHalfEven
  simp only
  split_ifs <;> omega

theorem roundHalfEven_nonpos (x : ℚ) (h : x ≤ 0) : roundHalfEven x ≤ 0 := by
  rcases eq_or_lt_of_le h with h0 | h0
  · rw [h0]
    simp [roundHalfEven]
  · have h1 : ⌊x⌋ < 0 := Int.floor_lt.mpr (by exact_mod_cast h0)
    unfold roundHalfEven
    simp only
    split_ifs <;> omega

theorem two_zpow_pos (q : ℤ) : (0 : ℚ) < (2 : ℚ) ^ q := zpow_pos (by norm_num) q

theorem roundDouble_nonneg (x : ℚ) (h : 0 ≤ x) : 0 ≤ roundDouble x := by
  unfold roundDouble
  split_ifs
  · exact le_refl 0
  · have hq := two_zpow_pos (Int.log 2 |x| - 52)
    have := roundHalfEven_nonneg (x / (2 : ℚ) ^ (Int.log 2 |x| - 52)) (div_nonneg h (le_of_lt hq))
    have h2 : (0 : ℚ) ≤ (roundHalfEven (x / (2 : ℚ) ^ (Int.log 2 |x| - 52)) : ℚ) := by
      exact_mod_cast this
    exact mul_nonneg h2 (le_of_lt hq)

theorem roundDouble_nonpos (x : ℚ) (h : x ≤ 0) : roundDouble x ≤ 0 := by
  unfold roundDouble
  split_ifs
  · exact le_refl 0
  · have hq := two_zpow_pos (Int.log 2 |x| - 52)
    have := roundHalfEven_nonpos (x / (2 : ℚ) ^ (Int.log 2 |x| - 52))
      (div_nonpos_of_nonpos_of_nonneg h (le_of_lt hq))
    have h2 : (roundHalfEven (x / (2 : ℚ) ^ (Int.log 2 |x| - 52)) : ℚ) ≤ 0 := by
      exact_mod_cast this
    exact mul_nonpos_of_nonpos_of_nonneg h2 (le_of_lt hq)

/-- The binary exponent of a rational between two consecutive powers of 2. -/
theorem log_two_eq (x : ℚ) (e : ℤ) (hlo : (2 : ℚ) ^ e ≤ |x|) (hhi : |x| < (2 : ℚ) ^ (e + 1)) :
    Int.log 2 |x| = e := by
  have hpos : 0 < |x| := lt_of_lt_of_le (two_zpow_pos e) hlo
  have h1 : e ≤ Int.log 2 |x| := by
    rw [← Int.zpow_le_iff_le_log (by norm_num) hpos]
    exact_mod_cast hlo
  have h2 : Int.log 2 |x| < e + 1 := by
    rw [← Int.lt_zpow_iff_log_lt (by norm_num) hpos]
    exact_mod_cast hhi
  omega

/-- Evaluation of `roundDouble` from the binary exponent and the rounded
significand. -/
theorem roundDouble_eval (x : ℚ) (e m : ℤ) (hlo : (2 : ℚ) ^ e ≤ |x|)
    (hhi : |x| < (2 : ℚ) ^ (e + 1)) (hm : roundHalfEven (x / (2 : ℚ) ^ (e - 52)) = m) :
    roundDouble x = (m : ℚ) * (2 : ℚ) ^ (e - 52) := by
  have hpos : 0 < |x| := lt_of_lt_of_le (two_zpow_pos e) hlo
  have hx : x ≠ 0 := abs_pos.mp hpos
  unfold roundDouble
  rw [if_neg hx]
  simp only [log_two_eq x e hlo hhi, hm]

/-- The relative error of `roundDouble` is at most `2⁻⁵³`. -/
theorem roundDouble_error (x : ℚ) : |roundDouble x - x| ≤ |x| / 2 ^ 53 := by
  by_cases hx : x = 0
  · simp [roundDouble, hx]
  · have hpos : 0 < |x| := abs_pos.mpr hx
    unfold roundDouble
    rw [if_neg hx]
    simp only
    have hq := two_zpow_pos (Int.log 2 |x| - 52)
    have he := roundHalfEven_error (x / (2 : ℚ) ^ (Int.log 2 |x| - 52))
    have hlog : ((2 : ℕ) : ℚ) ^ Int.log 2 |x| ≤ |x| := Int.zpow_log_le_self (by norm_num) hpos
    have hsplit : (2 : ℚ) ^ (Int.log 2 |x| - 52) = (2 : ℚ) ^ Int.log 2 |x| / 2 ^ 52 := by
      rw [zpow_sub₀ (by norm_num)]
      norm_num
    have e1 : (roundHalfEven (x / (2 : ℚ) ^ (Int.log 2 |x| - 52)) : ℚ) *
        (2 : ℚ) ^ (Int.log 2 |x| - 52) - x =
        ((roundHalfEven (x / (2 : ℚ) ^ (Int.log 2 |x| - 52)) : ℚ) -
          x / (2 : ℚ) ^ (Int.log 2 |x| - 52)) * (2 : ℚ) ^ (Int.log 2 |x| - 52) := by
      field_simp
    rw [e1, abs_mul, abs_of_pos hq]
    have h3 : |(roundHalfEven (x / (2 : ℚ) ^ (Int.log 2 |x| - 52)) : ℚ) -
        x / (2 : ℚ) ^ (Int.log 2 |x| - 52)| * (2 : ℚ) ^ (Int.log 2 |x| - 52)
        ≤ 1 / 2 * (2 : ℚ) ^ (Int.log 2 |x| - 52) :=
      mul_le_mul_of_nonneg_right he (le_of_lt hq)
    have hlog' : (2 : ℚ) ^ Int.log 2 |x| ≤ |x| := by exact_mod_cast hlog
    rw [hsplit] at h3 ⊢
    have : (1 : ℚ) / 2 * ((2 : ℚ) ^ Int.log 2 |x| / 2 ^ 52) ≤ |x| / 2 ^ 53 := by
      have : (1 : ℚ) / 2 * ((2 : ℚ) ^ Int.log 2 |x| / 2 ^ 52) = (2 : ℚ) ^ Int.log 2 |x| / 2 ^ 53 := by
        norm_num
        ring
      rw [this]
      exact div_le_div_of_nonneg_right hlog' (by norm_num)
    linarith


/-- A rational with a significand of fewer than 54 bits is a `double`. -/
theorem roundDouble_exact (x : ℚ) (m k : ℤ) (hx : x = (m : ℚ) * (2 : ℚ) ^ k)
    (hm : |m| < 2 ^ 53) : roundDouble x = x := by
  by_cases h0 : x = 0
  · simp [roundDouble, h0]
  · have hpos : 0 < |x| := abs_pos.mpr h0
    have hk := two_zpow_pos k
    have habs : |x| = (|m| : ℚ) * (2 : ℚ) ^ k := by
      rw [hx, abs_mul, abs_of_pos hk]
    have hm' : (|m| : ℚ) < (2 : ℚ) ^ (53 : ℤ) := by
      have : ((|m| : ℤ) : ℚ) < ((2 ^ 53 : ℤ) : ℚ) := by exact_mod_cast hm
      push_cast at this
      norm_num
      exact this
    have hlt : |x| < (2 : ℚ) ^ (53 + k) := by
      rw [habs, zpow_add₀ (by norm_num)]
      exact mul_lt_mul_of_pos_right hm' hk
    have hlog : ((2 : ℕ) : ℚ) ^ Int.log 2 |x| ≤ |x| := Int.zpow_log_le_self (by norm_num) hpos
    have hlog' : (2 : ℚ) ^ Int.log 2 |x| ≤ |x| := by exact_mod_cast hlog
    have hexp : Int.log 2 |x| < 53 + k := by
      have := lt_of_le_of_lt hlog' hlt
      exact (zpow_lt_zpow_iff_right₀ (by norm_num : (1 : ℚ) < 2)).mp this
    unfold roundDouble
    rw [if_neg h0]
    simp only
    generalize Int.log 2 |x| = L at hexp ⊢
    obtain ⟨j, hj⟩ : ∃ j : ℕ, k - (L - 52) = (j : ℤ) := ⟨(k - (L - 52)).toNat, by omega⟩
    have hk2 : (2 : ℚ) ^ k = (2 : ℚ) ^ j * (2 : ℚ) ^ (L - 52) := by
      rw [← zpow_natCast, ← zpow_add₀ (by norm_num), ← hj]
      congr 1
      ring
    have hq := two_zpow_pos (L - 52)
    have hdiv : x / (2 : ℚ) ^ (L - 52) = ((m * 2 ^ j : ℤ) : ℚ) := by
      rw [hx, hk2]
      push_cast
      field_simp
      ring
    rw [hdiv, roundHalfEven_intCast, hx, hk2]
    push_cast
    ring

theorem roundDouble_intCast (m : ℤ) (hm : |m| < 2 ^ 53) : roundDouble (m : ℚ) = m :=
  roundDouble_exact (m : ℚ) m 0 (by simp) hm

/-- A multiple of `2⁻¹⁶` below `2³⁷` in magnitude is a `double`. -/
theorem roundDouble_q16 (x : ℚ) (hint : ((⌊x * 65536⌋ : ℤ) : ℚ) = x * 65536)
    (hlt : |x * 65536| < 9007199254740992) : roundDouble x = x := by
  apply roundDouble_exact x ⌊x * 65536⌋ (-16)
  · rw [hint]
    norm_num
    ring
  · have : ((|⌊x * 65536⌋| : ℤ) : ℚ) < ((2 ^ 53 : ℤ) : ℚ) := by
      push_cast
      rw [hint]
      exact hlt
    exact_mod_cast this

/-- The `double` written `.95`. -/
theorem roundDouble_095 : roundDouble (95 / 100) = 4278419646001971 / 4503599627370496 := by
  rw [roundDouble_eval (95 / 100) (-1) 8556839292003942 (by norm_num [abs_of_pos]) (by norm_num [abs_of_pos])
    (by norm_num [roundHalfEven])]
  norm_num

/-- The `double` product `VOLUME_MAX * .95`, which is 31129.599999999998. -/
theorem roundDouble_volume : roundDouble (4278419646001971 / 137438953472) = 4278419646001971 / 137438953472 := by
  rw [roundDouble_eval (4278419646001971 / 137438953472) (14) 8556839292003942 (by norm_num [abs_of_pos]) (by norm_num [abs_of_pos])
    (by norm_num [roundHalfEven])]
  norm_num

/-- The `double` written `.1`. -/
theorem roundDouble_010 : roundDouble (1 / 10) = 3602879701896397 / 36028797018963968 := by
  rw [roundDouble_eval (1 / 10) (-4) 7205759403792794 (by norm_num [abs_of_pos]) (by norm_num [abs_of_pos])
    (by norm_num [roundHalfEven])]
  norm_num

/-- The `double` product `.1 * 44100`, which is 4410. -/
theorem roundDouble_attack : roundDouble (39721748713407776925 / 9007199254740992) = 4410 := by
  rw [roundDouble_eval (39721748713407776925 / 9007199254740992) (12) 4848846278492160 (by norm_num [abs_of_pos]) (by norm_num [abs_of_pos])
    (by norm_num [roundHalfEven])]
  norm_num

/-- The `double` written `0.12`. -/
theorem roundDouble_012 : roundDouble (12 / 100) = 1080863910568919 / 9007199254740992 := by
  rw [roundDouble_eval (12 / 100) (-4) 8646911284551352 (by norm_num [abs_of_pos]) (by norm_num [abs_of_pos])
    (by norm_num [roundHalfEven])]
  norm_num

/-- The `double` written `0.58`. -/
theorem roundDouble_058 : roundDouble (58 / 100) = 5224175567749775 / 9007199254740992 := by
  rw [roundDouble_eval (58 / 100) (-1) 5224175567749775 (by norm_num [abs_of_pos]) (by norm_num [abs_of_pos])
    (by norm_num [roundHalfEven])]
  norm_num

/-- The `double` written `0.7`. -/
theorem roundDouble_070 : roundDouble (7 / 10) = 3152519739159347 / 4503599627370496 := by
  rw [roundDouble_eval (7 / 10) (-1) 6305039478318694 (by norm_num [abs_of_pos]) (by norm_num [abs_of_pos])
    (by norm_num [roundHalfEven])]
  norm_num

/-- The `double` written `0.3`. -/
theorem roundDouble_030 : roundDouble (3 / 10) = 5404319552844595 / 18014398509481984 := by
  rw [roundDouble_eval (3 / 10) (-2) 5404319552844595 (by norm_num [abs_of_pos]) (by norm_num [abs_of_pos])
    (by norm_num [roundHalfEven])]
  norm_num

/-- The `double` written `2.55`. -/
theorem roundDouble_255 : roundDouble (255 / 100) = 2871044762448691 / 1125899906842624 := by
  rw [roundDouble_eval (255 / 100) (1) 5742089524897382 (by norm_num [abs_of_pos]) (by norm_num [abs_of_pos])
    (by norm_num [roundHalfEven])]
  norm_num

/-- The `double` written `2.60`. -/
theorem roundDouble_260 : roundDouble (260 / 100) = 5854679515581645 / 2251799813685248 := by
  rw [roundDouble_eval (260 / 100) (1) 5854679515581645 (by norm_num [abs_of_pos]) (by norm_num [abs_of_pos])
    (by norm_num [roundHalfEven])]
  norm_num

/-- The `double` product `0.12 * 44100`: the exact product is below 5292, the `double` is 5292. -/
theorem roundDouble_012_samples : roundDouble (11916524614022331975 / 2251799813685248) = 5292 := by
  rw [roundDouble_eval (11916524614022331975 / 2251799813685248) (12) 5818615534190592 (by norm_num [abs_of_pos]) (by norm_num [abs_of_pos])
    (by norm_num [roundHalfEven])]
  norm_num

/-- The `double` product `0.58 * 44100`: the exact product is below 25578, the `double` is 25578. -/
theorem roundDouble_058_samples : roundDouble (57596535634441269375 / 2251799813685248) = 25578 := by
  rw [roundDouble_eval (57596535634441269375 / 2251799813685248) (14) 7030827103813632 (by norm_num [abs_of_pos]) (by norm_num [abs_of_pos])
    (by norm_num [roundHalfEven])]
  norm_num

/-- The `double` product `44100 * 0.7`, which is 30869.999999999996. -/
theorem roundDouble_070_samples : roundDouble (34756530124231800675 / 1125899906842624) = 8485480987361279 / 274877906944 := by
  rw [roundDouble_eval (34756530124231800675 / 1125899906842624) (14) 8485480987361279 (by norm_num [abs_of_pos]) (by norm_num [abs_of_pos])
    (by norm_num [roundHalfEven])]
  norm_num

/-- The `double` product `0.3 * 44100`: the exact product is below 13230, the `double` is 13230. -/
theorem roundDouble_030_samples : roundDouble (59582623070111659875 / 4503599627370496) = 13230 := by
  rw [roundDouble_eval (59582623070111659875 / 4503599627370496) (13) 7273269417738240 (by norm_num [abs_of_pos]) (by norm_num [abs_of_pos])
    (by norm_num [roundHalfEven])]
  norm_num

/-- The `double` product `2.55 * 44100`, which is 112454.99999999999. -/
theorem roundDouble_255_samples : roundDouble (31653268505996818275 / 281474976710656) = 7727848756346879 / 68719476736 := by
  rw [roundDouble_eval (31653268505996818275 / 281474976710656) (16) 7727848756346879 (by norm_num [abs_of_pos]) (by norm_num [abs_of_pos])
    (by norm_num [roundHalfEven])]
  norm_num

/-- The `double` product `2.60 * 44100`, which is 114660. -/
theorem roundDouble_260_samples : roundDouble (64547841659287636125 / 562949953421312) = 114660 := by
  rw [roundDouble_eval (64547841659287636125 / 562949953421312) (16) 7879375202549760 (by norm_num [abs_of_pos]) (by norm_num [abs_of_pos])
    (by norm_num [roundHalfEven])]
  norm_num

/-- The `double` sum `110250 + 30869.999999999996`, which is 141120. -/
theorem roundDouble_drift_sum : roundDouble (38790770227937279 / 274877906944) = 141120 := by
  rw [roundDouble_eval (38790770227937279 / 274877906944) (17) 4848846278492160 (by norm_num [abs_of_pos]) (by norm_num [abs_of_pos])
    (by norm_num [roundHalfEven])]
  norm_num

/-! ## Theorems: pitch -/

theorem semitone_ratio_pos : (0 : ℚ) < SEMITONE_RATIO := by
  norm_num [ SEMITONE_RATIO]

theorem semitone_ratio_zpow_pos (k : ℤ) : (0 : ℚ) < SEMITONE_RATIO ^ k :=
  zpow_pos semitone_ratio_pos k

/-- Twelve steps of the ratio constant fall short of an octave, by less than
three parts in a million. -/
theorem semitone_ratio_pow_twelve :
    (1999997 / 1000000 : ℚ) < SEMITONE_RATIO ^ (12 : ℤ) ∧ SEMITONE_RATIO ^ (12 : ℤ) < 2 := by
  constructor <;> norm_num [ SEMITONE_RATIO]

theorem step_ratio (p r : ℚ) (hp : 0 < p) : 440 * (p * r) / (440 * p) = r := by
  have h : p ≠ 0 := ne_of_gt hp
  field_simp
  ring

/-- On a valid letter and accidental the code's offset is the specification's. -/
theorem get_freq_valid (n : Note) (hl : 65 ≤ n.name ∧ n.name ≤ 71)
    (ha : n.accidental = 98 ∨ n.accidental = 32 ∨ n.accidental = 35) :
    get_freq n = some (440 * SEMITONE_RATIO ^ specOffset n) := by
  obtain ⟨b, o, nm, ac, d, atk, dc⟩ := n
  obtain ⟨h1, h2⟩ := hl
  simp only at h1 h2 ha
  interval_cases nm <;> rcases ha with rfl | rfl | rfl <;>
    simp [get_freq, readAt, note_ctoi, accidental_ctoi, SEMITONE_SCALE, SEMITONES_PER_OCTAVE,
      specOffset, specTable, specDelta]

/-- C1: for a letter in 'A'..'G' and an accidental among 'b', ' ', '#',
`get_freq` returns 440 · r^k with r the ratio constant and
k = (octave − 4)·12 + table[letter] + delta; A natural in octave 4 gives 440. -/
theorem get_freq_spec (n : Note) (hl : 65 ≤ n.name ∧ n.name ≤ 71)
    (ha : n.accidental = 98 ∨ n.accidental = 32 ∨ n.accidental = 35) :
    get_freq n = some (440 * SEMITONE_RATIO ^ specOffset n) ∧
    (n.name = 65 → n.accidental = 32 → n.octave = 4 → get_freq n = some 440) := by
  refine ⟨get_freq_valid n hl ha, ?_⟩
  intro h1 h2 h3
  rw [get_freq_valid n hl ha]
  simp [specOffset, specTable, specDelta, h1, h2, h3]

theorem get_freq_spec_witness :
    get_freq (noteA 4) = some (440 * SEMITONE_RATIO ^ specOffset (noteA 4)) ∧
    get_freq (noteA 4) = some 440 :=
  have h := get_freq_spec (noteA 4) (by simp [noteA]) (by simp [noteA])
  ⟨h.1, h.2 rfl rfl rfl⟩

/-- C2 fails as stated: A natural in octave 5 is not 880, and is not twice A
natural in octave 4. -/
theorem get_freq_octave_not_double :
    get_freq (noteA 5) ≠ some 880 ∧
    ∃ f g : ℚ, get_freq (noteA 4) = some f ∧ get_freq (noteA 5) = some g ∧ g ≠ 2 * f := by
  have h4 := get_freq_valid (noteA 4) (by simp [noteA]) (by simp [noteA])
  have h5 := get_freq_valid (noteA 5) (by simp [noteA]) (by simp [noteA])
  have e4 : specOffset (noteA 4) = 0 := by simp [specOffset, specTable, specDelta, noteA]
  have e5 : specOffset (noteA 5) = 12 := by simp [specOffset, specTable, specDelta, noteA]
  rw [e4] at h4
  rw [e5] at h5
  have hlt := semitone_ratio_pow_twelve.2
  refine ⟨?_, 440, 440 * SEMITONE_RATIO ^ (12 : ℤ), by simpa using h4, h5, ?_⟩
  · rw [h5]
    intro h
    have h' := Option.some.inj h
    linarith
  · intro h
    linarith

/-- C2, amended: for a valid note, raising the octave by one multiplies the
frequency by the twelfth power of the ratio constant, a factor strictly between
1.999997 and 2; A natural in octave 5 gives a frequency strictly between
879.998 and 880. -/
theorem get_freq_octave_up (n : Note) (hl : 65 ≤ n.name ∧ n.name ≤ 71)
    (ha : n.accidental = 98 ∨ n.accidental = 32 ∨ n.accidental = 35) :
    ∃ f g : ℚ, get_freq n = some f ∧ get_freq { n with octave := n.octave + 1 } = some g ∧
      0 < f ∧ g = f * SEMITONE_RATIO ^ (12 : ℤ) ∧
      1999997 / 1000000 * f < g ∧ g < 2 * f ∧
      (n.name = 65 → n.accidental = 32 → n.octave = 4 → 879998 / 1000 < g ∧ g < 880) := by
  have h0 := get_freq_valid n hl ha
  have h1 := get_freq_valid { n with octave := n.octave + 1 } hl ha
  have e : specOffset { n with octave := n.octave + 1 } = specOffset n + 12 := by
    simp only [specOffset]
    ring
  have hp := semitone_ratio_zpow_pos (specOffset n)
  obtain ⟨hlo, hhi⟩ := semitone_ratio_pow_twelve
  have hg : (440 : ℚ) * SEMITONE_RATIO ^ (specOffset n + 12)
      = 440 * SEMITONE_RATIO ^ specOffset n * SEMITONE_RATIO ^ (12 : ℤ) := by
    rw [zpow_add₀ (ne_of_gt semitone_ratio_pos)]
    ring
  rw [e, hg] at h1
  have hf : (0 : ℚ) < 440 * SEMITONE_RATIO ^ specOffset n := by positivity
  refine ⟨_, _, h0, h1, hf, rfl, ?_, ?_, ?_⟩
  · rw [mul_comm (1999997 / 1000000 : ℚ)]
    exact mul_lt_mul_of_pos_left hlo hf
  · rw [mul_comm (2 : ℚ)]
    exact mul_lt_mul_of_pos_left hhi hf
  · intro h1 h2 h3
    have e0 : specOffset n = 0 := by simp [specOffset, specTable, specDelta, h1, h2, h3]
    rw [e0]
    constructor <;> norm_num <;> linarith

theorem get_freq_octave_up_witness :
    ∃ f g : ℚ, get_freq (noteA 4) = some f ∧
      get_freq { noteA 4 with octave := (noteA 4).octave + 1 } = some g ∧
      0 < f ∧ g = f * SEMITONE_RATIO ^ (12 : ℤ) ∧
      1999997 / 1000000 * f < g ∧ g < 2 * f ∧
      ((noteA 4).name = 65 → (noteA 4).accidental = 32 → (noteA 4).octave = 4 →
        879998 / 1000 < g ∧ g < 880) :=
  get_freq_octave_up (noteA 4) (by simp [noteA]) (by simp [noteA])

/-- The twelfth power of the twelfth root of 2. -/
theorem twelfth_root_pow : ((2 : ℝ) ^ ((1 : ℝ) / 12)) ^ 12 = 2 := by
  rw [← Real.rpow_natCast, ← Real.rpow_mul (by norm_num)]
  norm_num

/-- The ratio constant is the twelfth root of 2 to better than seven decimals. -/
theorem semitone_ratio_near_root :
    |(( SEMITONE_RATIO : ℚ) : ℝ) - (2 : ℝ) ^ ((1 : ℝ) / 12)| < 1 / 10 ^ 7 := by
  have hy0 : (0 : ℝ) < (2 : ℝ) ^ ((1 : ℝ) / 12) := Real.rpow_pos_of_pos (by norm_num) _
  have hy := twelfth_root_pow
  have hr : (( SEMITONE_RATIO : ℚ) : ℝ) = 1059463 / 1000000 := by
    simp only [ SEMITONE_RATIO]
    push_cast
    rfl
  rw [hr, abs_lt]
  constructor
  · by_contra h
    have h2 : (1059463 : ℝ) / 1000000 + 1 / 10 ^ 7 ≤ (2 : ℝ) ^ ((1 : ℝ) / 12) := by
      linarith [not_lt.mp h]
    have h3 := pow_le_pow_left₀ (by norm_num : (0 : ℝ) ≤ 1059463 / 1000000 + 1 / 10 ^ 7) h2 12
    rw [hy] at h3
    norm_num at h3
  · by_contra h
    have h2 : (2 : ℝ) ^ ((1 : ℝ) / 12) ≤ 1059463 / 1000000 - 1 / 10 ^ 7 := by
      linarith [not_lt.mp h]
    have h3 := pow_le_pow_left₀ (le_of_lt hy0) h2 12
    rw [hy] at h3
    norm_num at h3

/-- C3: for every letter A–G and every octave, the frequency `get_freq` returns
for the sharp note divided by the frequency it returns for the natural note is
the twelfth root of 2 (one semitone), to the precision of the ratio constant:
the two differ by less than 10⁻⁷. -/
theorem get_freq_sharp_semitone (n : Note) (hl : 65 ≤ n.name ∧ n.name ≤ 71) :
    ∃ f g : ℚ, get_freq { n with accidental := 32 } = some f ∧
      get_freq { n with accidental := 35 } = some g ∧ 0 < f ∧ 0 < g ∧
      |((g / f : ℚ) : ℝ) - (2 : ℝ) ^ ((1 : ℝ) / 12)| < 1 / 10 ^ 7 := by
  have h0 := get_freq_valid { n with accidental := 32 } hl (by simp)
  have h1 := get_freq_valid { n with accidental := 35 } hl (by simp)
  have e1 : specOffset { n with accidental := 35 } = specOffset { n with accidental := 32 } + 1 := by
    simp [specOffset, specDelta]
  rw [e1, zpow_add₀ (ne_of_gt semitone_ratio_pos), zpow_one] at h1
  have hp := semitone_ratio_zpow_pos (specOffset { n with accidental := 32 })
  have hr := step_ratio ( SEMITONE_RATIO ^ specOffset { n with accidental := 32 }) SEMITONE_RATIO hp
  have hs := semitone_ratio_pos
  refine ⟨_, _, h0, h1, by positivity, by positivity, ?_⟩
  rw [hr]
  exact semitone_ratio_near_root

theorem get_freq_sharp_semitone_witness :
    ∃ f g : ℚ, get_freq { noteC3 32 with accidental := 32 } = some f ∧
      get_freq { noteC3 32 with accidental := 35 } = some g ∧ 0 < f ∧ 0 < g ∧
      |((g / f : ℚ) : ℝ) - (2 : ℝ) ^ ((1 : ℝ) / 12)| < 1 / 10 ^ 7 :=
  get_freq_sharp_semitone (noteC3 32) (by simp [noteC3])

/-! ## Theorems: the envelope phases and the mix -/

theorem overlapNote_timing :
    note_start overlapNote = 0 ∧ note_finish overlapNote = 10 ∧
    attack_finish overlapNote = 8 ∧ decay_start overlapNote = 2 := by
  norm_num [note_start, note_finish, attack_finish, decay_start, attack_duration,
    decay_duration, toInt, fmul, fadd, roundDouble_q16, overlapNote, WAVFILE_SAMPLES_PER_SECOND]

theorem branch_attack (n : Note) (i : ℤ) (h : n.attack > 0 ∧ i ≤ attack_finish n) :
    branch n i = Branch.attack (i - note_start n) (attack_duration n) := by
  simp only [branch, if_pos h]

theorem branch_decay (n : Note) (i : ℤ) (h : ¬ (n.attack > 0 ∧ i ≤ attack_finish n))
    (h2 : n.decay > 0 ∧ i ≥ decay_start n) :
    branch n i = Branch.decay (note_finish n - i) (decay_duration n) := by
  simp only [branch, if_neg h, if_pos h2]

theorem branch_sustain (n : Note) (i : ℤ) (h : ¬ (n.attack > 0 ∧ i ≤ attack_finish n))
    (h2 : ¬ (n.decay > 0 ∧ i ≥ decay_start n)) :
    branch n i = Branch.sustain := by
  simp only [branch, if_neg h, if_neg h2]

/-- C4: a sample is Attack exactly when `attack > 0` and `i ≤ attack_finish`
(also when `i ≥ decay_start`), Decay exactly when it is not Attack and
`decay > 0` and `i ≥ decay_start`, and Sustain otherwise; with an attack, only
samples strictly after `attack_finish` are Decay. -/
theorem phase_classification (n : Note) (i : ℤ) :
    (phase n i = Phase.Attack ↔ n.attack > 0 ∧ i ≤ attack_finish n) ∧
    (phase n i = Phase.Decay ↔
      ¬ (n.attack > 0 ∧ i ≤ attack_finish n) ∧ n.decay > 0 ∧ i ≥ decay_start n) ∧
    (phase n i = Phase.Sustain ↔
      ¬ (n.attack > 0 ∧ i ≤ attack_finish n) ∧ ¬ (n.decay > 0 ∧ i ≥ decay_start n)) ∧
    (n.attack > 0 → i ≤ attack_finish n → i ≥ decay_start n → phase n i = Phase.Attack) ∧
    (n.attack > 0 → phase n i = Phase.Decay → attack_finish n < i) := by
  unfold phase branch
  by_cases ha : n.attack > 0 ∧ i ≤ attack_finish n
  · simp only [if_pos ha, Branch.phase]
    simp [ha]
  · by_cases hd : n.decay > 0 ∧ i ≥ decay_start n
    · simp only [if_neg ha, if_pos hd, Branch.phase]
      simp only [not_and, not_le] at ha
      simp only [not_and, not_le]
      refine ⟨?_, ?_, ?_, ?_, ?_⟩
      · constructor
        · intro h; cases h
        · intro h; exact absurd (ha h.1) (not_lt.mpr h.2)
      · constructor
        · intro _; exact ⟨ha, hd⟩
        · intro _; trivial
      · constructor
        · intro h; cases h
        · intro h; exact absurd hd.2 (not_le.mpr (h.2 hd.1))
      · intro h1 h2 _; exact absurd (ha h1) (not_lt.mpr h2)
      · intro h1 _; exact ha h1
    · simp only [if_neg ha, if_neg hd, Branch.phase]
      simp only [not_and, not_le] at ha hd
      simp only [not_and, not_le]
      refine ⟨?_, ?_, ?_, ?_, ?_⟩
      · constructor
        · intro h; cases h
        · intro h; exact absurd (ha h.1) (not_lt.mpr h.2)
      · constructor
        · intro h; cases h
        · intro h; exact absurd (hd h.2.1) (not_lt.mpr h.2.2)
      · constructor
        · intro _; exact ⟨ha, hd⟩
        · intro _; trivial
      · intro h1 h2 _; exact absurd (ha h1) (not_lt.mpr h2)
      · intro _ h; cases h

/-- In the overlap of the two windows of `overlapNote`, sample 5 is Attack and
sample 9, after `attack_finish`, is Decay. -/
theorem phase_overlap_example :
    phase overlapNote 5 = Phase.Attack ∧ phase overlapNote 9 = Phase.Decay := by
  obtain ⟨h1, h2, h3, h4⟩ := overlapNote_timing
  have ha : overlapNote.attack > 0 := by norm_num [overlapNote]
  have hd : overlapNote.decay > 0 := by norm_num [overlapNote]
  constructor
  · unfold phase
    rw [branch_attack overlapNote 5 ⟨ha, by rw [h3]; norm_num⟩]
    rfl
  · unfold phase
    rw [branch_decay overlapNote 9 (by rw [h3]; intro h; exact absurd h.2 (by norm_num))
      ⟨hd, by rw [h4]; norm_num⟩]
    rfl

/-- C5: the value computed for a write, before it is clamped and stored, is
`(existing + s·f)·(0.95 − 0.5·f)` in the Attack phase with
`f = (i − note_start) / attack_duration`, the same in the Decay phase with
`f = (note_finish − i) / decay_duration`, and `(existing + s)·0.5` in the
Sustain phase. -/
theorem mix_formula (n : Note) (i : ℤ) (existing : ℤ) (s : ℚ) :
    (phase n i = Phase.Attack →
      mix existing s (branch n i) =
        (fdiv ((i - note_start n : ℤ) : ℚ) (attack_duration n : ℚ)).map (gentleMix existing s) ∧
      (attack_duration n ≠ 0 →
        mix existing s (branch n i) =
          some (gentleMix existing s (((i - note_start n : ℤ) : ℚ) / (attack_duration n : ℚ))))) ∧
    (phase n i = Phase.Decay →
      mix existing s (branch n i) =
        (fdiv ((note_finish n - i : ℤ) : ℚ) (decay_duration n : ℚ)).map (gentleMix existing s) ∧
      (decay_duration n ≠ 0 →
        mix existing s (branch n i) =
          some (gentleMix existing s (((note_finish n - i : ℤ) : ℚ) / (decay_duration n : ℚ))))) ∧
    (phase n i = Phase.Sustain →
      mix existing s (branch n i) = some (averageMix existing s)) := by
  have key : ∀ a b : ℤ, ∀ g : ℚ → ℚ, b ≠ 0 →
      (fdiv (a : ℚ) (b : ℚ)).map g = some (g ((a : ℚ) / (b : ℚ))) := by
    intro a b g hb
    have hb' : (b : ℚ) ≠ 0 := by exact_mod_cast hb
    simp [fdiv, hb']
  have hgm : ∀ f : ℚ, ((existing : ℚ) + s * f) * (95 / 100 - 5 / 10 * f) = gentleMix existing s f := by
    intro f
    unfold gentleMix
    norm_num
  unfold phase
  by_cases ha : n.attack > 0 ∧ i ≤ attack_finish n
  · have hb : branch n i = Branch.attack (i - note_start n) (attack_duration n) := by
      simp only [branch, if_pos ha]
    rw [hb]
    refine ⟨fun _ => ?_, fun h => (by cases h), fun h => (by cases h)⟩
    have e : mix existing s (Branch.attack (i - note_start n) (attack_duration n)) =
        (fdiv ((i - note_start n : ℤ) : ℚ) (attack_duration n : ℚ)).map (gentleMix existing s) := by
      simp only [mix, Branch.factor]
      congr 1
      funext f
      exact hgm f
    exact ⟨e, fun h0 => by rw [e, key _ _ _ h0]⟩
  · by_cases hd : n.decay > 0 ∧ i ≥ decay_start n
    · have hb : branch n i = Branch.decay (note_finish n - i) (decay_duration n) := by
        simp only [branch, if_neg ha, if_pos hd]
      rw [hb]
      refine ⟨fun h => (by cases h), fun _ => ?_, fun h => (by cases h)⟩
      have e : mix existing s (Branch.decay (note_finish n - i) (decay_duration n)) =
          (fdiv ((note_finish n - i : ℤ) : ℚ) (decay_duration n : ℚ)).map (gentleMix existing s) := by
        simp only [mix, Branch.factor]
        congr 1
        funext f
        exact hgm f
      exact ⟨e, fun h0 => by rw [e, key _ _ _ h0]⟩
    · have hb : branch n i = Branch.sustain := by
        simp only [branch, if_neg ha, if_neg hd]
      rw [hb]
      refine ⟨fun h => (by cases h), fun h => (by cases h), fun _ => ?_⟩
      simp only [mix, averageMix]
      norm_num

theorem mix_formula_witness :
    phase overlapNote 5 = Phase.Attack ∧
    mix 100 200 (branch overlapNote 5) =
      some (gentleMix 100 200
        (((5 - note_start overlapNote : ℤ) : ℚ) / (attack_duration overlapNote : ℚ))) :=
  have hp : phase overlapNote 5 = Phase.Attack := phase_overlap_example.1
  have hd : attack_duration overlapNote ≠ 0 := by
    norm_num [attack_duration, toInt, fmul, fadd, roundDouble_q16, overlapNote, WAVFILE_SAMPLES_PER_SECOND]
  ⟨hp, ((mix_formula overlapNote 5 100 200).1 hp).2 hd⟩

/-! ## Theorems: storing a sample -/

theorem toInt_of_nonneg (x : ℚ) (h : 0 ≤ x) : toInt x = ⌊x⌋ := by
  simp only [toInt, if_pos h]

theorem toShort_range (x : ℚ) (w : ℤ) (h : toShort x = some w) : -32768 ≤ w ∧ w ≤ 32767 := by
  unfold toShort at h
  simp only at h
  split at h
  · rename_i hr
    cases h
    exact hr
  · cases h

/-- On a `short` the two comparisons of lines 220 and 221 are never true. -/
theorem normalize_short (w : ℤ) (h : -32768 ≤ w ∧ w ≤ 32767) : normalize w = w := by
  obtain ⟨h1, h2⟩ := h
  have e1 : ¬ (w > VOLUME_MAX) := by
    simp only [VOLUME_MAX]
    omega
  have e2 : ¬ (w < -1 * VOLUME_MAX) := by
    simp only [VOLUME_MAX]
    omega
  simp only [normalize, if_neg e1, if_neg e2]

/-- Whatever a write stores is a `short`, hence never 32768, and it is the
truncated mix value, unchanged by lines 220 and 221. -/
theorem writeSample_stored (n : Note) (i existing : ℤ) (s : ℚ) (w : ℤ)
    (h : writeSample n i existing s = some w) :
    -32768 ≤ w ∧ w ≤ 32767 ∧ w ≠ 32768 ∧
    ∃ v : ℚ, mix existing s (branch n i) = some v ∧ toInt v = w := by
  unfold writeSample at h
  cases hv : mix existing s (branch n i) with
  | none => rw [hv] at h; cases h
  | some v =>
    rw [hv] at h
    simp only [Option.some_bind] at h
    cases ht : toShort v with
    | none => rw [ht] at h; cases h
    | some t =>
      rw [ht] at h
      simp only [Option.map_some'] at h
      have hr := toShort_range v t ht
      rw [normalize_short t hr] at h
      cases h
      refine ⟨hr.1, hr.2, by omega, v, rfl, ?_⟩
      unfold toShort at ht
      simp only at ht
      split at ht
      · cases ht; rfl
      · cases ht

/-- C6, the code at the failing inputs: at sample 2 of `attackNote` (attack
factor 0.2), with 32767 stored and a new sample 31129 the mix value is
33143.88, above 32768, and with −32768 stored and a new sample −31129 it is
−33144.73, below −32768; in both cases the conversion to `short` is undefined
and no clamped sample is stored. -/
theorem clamp_after_store_fails :
    mix 32767 31129 (branch attackNote 2) = some (828597 / 25) ∧
    (32768 : ℚ) < 828597 / 25 ∧
    writeSample attackNote 2 32767 31129 = none ∧
    writeSample attackNote 2 32767 31129 ≠ some 32768 ∧
    mix (-32768) (-31129) (branch attackNote 2) = some (-3314473 / 100) ∧
    (-3314473 / 100 : ℚ) < -32768 ∧
    writeSample attackNote 2 (-32768) (-31129) = none ∧
    writeSample attackNote 2 (-32768) (-31129) ≠ some (-32768) := by
  have hb : branch attackNote 2 = Branch.attack 2 10 := by
    rw [branch_attack attackNote 2 (by
      norm_num [attackNote, attack_finish, note_start, attack_duration, toInt, fmul, fadd, roundDouble_q16,
        WAVFILE_SAMPLES_PER_SECOND])]
    norm_num [attackNote, note_start, attack_duration, toInt, fmul, fadd, roundDouble_q16, WAVFILE_SAMPLES_PER_SECOND]
  have m1 : mix 32767 31129 (Branch.attack 2 10) = some (828597 / 25) := by
    norm_num [mix, Branch.factor, fdiv]
  have m2 : mix (-32768) (-31129) (Branch.attack 2 10) = some (-3314473 / 100) := by
    norm_num [mix, Branch.factor, fdiv]
  have t1 : toShort (828597 / 25) = none := by
    norm_num [toShort, toInt, fmul, fadd, roundDouble_q16]
  have c2 : ⌈(-3314473 / 100 : ℚ)⌉ = -33144 := by
    rw [Int.ceil_eq_iff]
    norm_num
  have t2 : toShort (-3314473 / 100) = none := by
    have hneg : ¬ ((0 : ℚ) ≤ -3314473 / 100) := by norm_num
    simp only [toShort, toInt, if_neg hneg, c2]
    norm_num
  have w1 : writeSample attackNote 2 32767 31129 = none := by
    simp only [writeSample, hb, m1, Option.some_bind, t1, Option.map_none']
  have w2 : writeSample attackNote 2 (-32768) (-31129) = none := by
    simp only [writeSample, hb, m2, Option.some_bind, t2, Option.map_none']
  rw [hb]
  refine ⟨m1, by norm_num, w1, by rw [w1]; simp, m2, by norm_num, w2, by rw [w2]; simp⟩

/-! ## Theorems: note timing -/

/-- C7 fails as stated: for a note beginning at 1/65536 s, `begin × sample_rate`
is 0.67, which rounds to 1, while `note_start` is 0. -/
theorem note_start_not_rounded :
    note_start lateNote = 0 ∧
    round (lateNote.begin * (WAVFILE_SAMPLES_PER_SECOND : ℚ)) = 1 ∧
    note_start lateNote ≠ round (lateNote.begin * (WAVFILE_SAMPLES_PER_SECOND : ℚ)) := by
  have h1 : note_start lateNote = 0 := by
    norm_num [note_start, toInt, fmul, fadd, roundDouble_q16, lateNote, WAVFILE_SAMPLES_PER_SECOND]
  have h2 : round (lateNote.begin * (WAVFILE_SAMPLES_PER_SECOND : ℚ)) = 1 := by
    rw [round_eq]
    norm_num [lateNote, WAVFILE_SAMPLES_PER_SECOND]
  refine ⟨h1, h2, ?_⟩
  rw [h1, h2]
  norm_num

/-- C7, amended: for a note with non-negative begin, duration, attack and decay,
`note_start` is the `double` product `begin × sample_rate` with its fractional
part discarded (rounded down, not to the nearest integer), `note_finish` is the
`double` sum `note_start + duration × sample_rate` with its fractional part
discarded, and `attack_duration` and `decay_duration` are the `double` products
`attack × sample_rate` and `decay × sample_rate` with their fractional parts
discarded; each `double` product is within one part in 2⁵³ of the exact one. -/
theorem timing_truncates (n : Note) (hb : 0 ≤ n.begin) (hd : 0 ≤ n.duration)
    (ha : 0 ≤ n.attack) (hc : 0 ≤ n.decay) :
    (note_start n = ⌊fmul n.begin (WAVFILE_SAMPLES_PER_SECOND : ℚ)⌋ ∧
      note_finish n =
        ⌊fadd (note_start n : ℚ) (fmul n.duration (WAVFILE_SAMPLES_PER_SECOND : ℚ))⌋ ∧
      attack_duration n = ⌊fmul n.attack (WAVFILE_SAMPLES_PER_SECOND : ℚ)⌋ ∧
      decay_duration n = ⌊fmul n.decay (WAVFILE_SAMPLES_PER_SECOND : ℚ)⌋) ∧
    (|fmul n.begin (WAVFILE_SAMPLES_PER_SECOND : ℚ) - n.begin * 44100| ≤ n.begin * 44100 / 2 ^ 53 ∧
      |fmul n.duration (WAVFILE_SAMPLES_PER_SECOND : ℚ) - n.duration * 44100| ≤
        n.duration * 44100 / 2 ^ 53 ∧
      |fmul n.attack (WAVFILE_SAMPLES_PER_SECOND : ℚ) - n.attack * 44100| ≤
        n.attack * 44100 / 2 ^ 53 ∧
      |fmul n.decay (WAVFILE_SAMPLES_PER_SECOND : ℚ) - n.decay * 44100| ≤
        n.decay * 44100 / 2 ^ 53) ∧
    ((note_start n : ℚ) ≤ n.begin * 44100 * (1 + 1 / 2 ^ 53) ∧
      n.begin * 44100 * (1 - 1 / 2 ^ 53) - 1 < (note_start n : ℚ)) := by
  have hw : (0 : ℚ) ≤ (WAVFILE_SAMPLES_PER_SECOND : ℚ) := by
    norm_num [WAVFILE_SAMPLES_PER_SECOND]
  have hw44 : ((WAVFILE_SAMPLES_PER_SECOND : ℤ) : ℚ) = 44100 := by
    norm_num [WAVFILE_SAMPLES_PER_SECOND]
  have prod : ∀ x : ℚ, 0 ≤ x →
      0 ≤ fmul x (WAVFILE_SAMPLES_PER_SECOND : ℚ) ∧
      |fmul x (WAVFILE_SAMPLES_PER_SECOND : ℚ) - x * 44100| ≤ x * 44100 / 2 ^ 53 := by
    intro x hx
    refine ⟨roundDouble_nonneg _ (mul_nonneg hx hw), ?_⟩
    have h := roundDouble_error (x * (WAVFILE_SAMPLES_PER_SECOND : ℚ))
    rw [hw44, abs_of_nonneg (mul_nonneg hx (by norm_num))] at h
    unfold fmul
    rw [hw44]
    exact h
  obtain ⟨pb, eb⟩ := prod n.begin hb
  obtain ⟨pd, ed⟩ := prod n.duration hd
  obtain ⟨pa, ea⟩ := prod n.attack ha
  obtain ⟨pc, ec⟩ := prod n.decay hc
  have hs : note_start n = ⌊fmul n.begin (WAVFILE_SAMPLES_PER_SECOND : ℚ)⌋ :=
    toInt_of_nonneg _ pb
  have hs0 : (0 : ℚ) ≤ (note_start n : ℚ) := by
    have : 0 ≤ note_start n := by
      rw [hs]
      exact Int.floor_nonneg.mpr pb
    exact_mod_cast this
  have hf : note_finish n =
      ⌊fadd (note_start n : ℚ) (fmul n.duration (WAVFILE_SAMPLES_PER_SECOND : ℚ))⌋ :=
    toInt_of_nonneg _ (roundDouble_nonneg _ (add_nonneg hs0 pd))
  refine ⟨⟨hs, hf, toInt_of_nonneg _ pa, toInt_of_nonneg _ pc⟩, ⟨eb, ed, ea, ec⟩, ?_, ?_⟩
  · have h1 : (note_start n : ℚ) ≤ fmul n.begin (WAVFILE_SAMPLES_PER_SECOND : ℚ) := by
      rw [hs]
      exact Int.floor_le _
    have h2 := (abs_le.mp eb).2
    linarith
  · have h1 : fmul n.begin (WAVFILE_SAMPLES_PER_SECOND : ℚ) < (note_start n : ℚ) + 1 := by
      rw [hs]
      exact Int.lt_floor_add_one _
    have h2 := (abs_le.mp eb).1
    linarith

theorem timing_truncates_witness :
    (note_start lateNote = ⌊fmul lateNote.begin (WAVFILE_SAMPLES_PER_SECOND : ℚ)⌋ ∧
      note_finish lateNote =
        ⌊fadd (note_start lateNote : ℚ) (fmul lateNote.duration (WAVFILE_SAMPLES_PER_SECOND : ℚ))⌋ ∧
      attack_duration lateNote = ⌊fmul lateNote.attack (WAVFILE_SAMPLES_PER_SECOND : ℚ)⌋ ∧
      decay_duration lateNote = ⌊fmul lateNote.decay (WAVFILE_SAMPLES_PER_SECOND : ℚ)⌋) ∧
    (|fmul lateNote.begin (WAVFILE_SAMPLES_PER_SECOND : ℚ) - lateNote.begin * 44100| ≤
        lateNote.begin * 44100 / 2 ^ 53 ∧
      |fmul lateNote.duration (WAVFILE_SAMPLES_PER_SECOND : ℚ) - lateNote.duration * 44100| ≤
        lateNote.duration * 44100 / 2 ^ 53 ∧
      |fmul lateNote.attack (WAVFILE_SAMPLES_PER_SECOND : ℚ) - lateNote.attack * 44100| ≤
        lateNote.attack * 44100 / 2 ^ 53 ∧
      |fmul lateNote.decay (WAVFILE_SAMPLES_PER_SECOND : ℚ) - lateNote.decay * 44100| ≤
        lateNote.decay * 44100 / 2 ^ 53) ∧
    ((note_start lateNote : ℚ) ≤ lateNote.begin * 44100 * (1 + 1 / 2 ^ 53) ∧
      lateNote.begin * 44100 * (1 - 1 / 2 ^ 53) - 1 < (note_start lateNote : ℚ)) :=
  timing_truncates lateNote (by norm_num [lateNote]) (by norm_num [lateNote])
    (by norm_num [lateNote]) (by norm_num [lateNote])

/-- The rounding of the `double` product and sum decides the index: a begin of
0.3 s gives `note_start` 13230 although the exact product is below 13230, and a
begin of 2.5 s with a duration of 0.7 s gives `note_finish` 141120 although
`duration × sample_rate` is below 30870. -/
theorem timing_examples :
    note_start tenthsNote = 13230 ∧
    ⌊tenthsNote.begin * 44100⌋ = 13229 ∧
    note_start driftNote = 110250 ∧ note_finish driftNote = 141120 ∧
    ⌊driftNote.duration * 44100⌋ = 30869 := by
  have e30 : (5404319552844595 / 18014398509481984 : ℚ) * ((44100 : ℤ) : ℚ) = 59582623070111659875 / 4503599627370496 := by
    norm_num
  have e70 : (3152519739159347 / 4503599627370496 : ℚ) * ((44100 : ℤ) : ℚ) = 34756530124231800675 / 1125899906842624 := by
    norm_num
  have e141 : (((110250 : ℤ) : ℚ)) + (8485480987361279 / 274877906944 : ℚ) = 38790770227937279 / 274877906944 := by
    norm_num
  have h1 : note_start tenthsNote = 13230 := by
    simp only [note_start, fmul, tenthsNote, roundDouble_030, WAVFILE_SAMPLES_PER_SECOND, e30,
      roundDouble_030_samples]
    norm_num [toInt]
  have h2 : ⌊tenthsNote.begin * 44100⌋ = 13229 := by
    simp only [tenthsNote, roundDouble_030]
    norm_num
  have h3 : note_start driftNote = 110250 := by
    norm_num [note_start, toInt, fmul, roundDouble_q16, driftNote, WAVFILE_SAMPLES_PER_SECOND]
  have h4 : note_finish driftNote = 141120 := by
    rw [note_finish, h3]
    simp only [fadd, fmul, driftNote, roundDouble_070, WAVFILE_SAMPLES_PER_SECOND, e70,
      roundDouble_070_samples, e141, roundDouble_drift_sum]
    norm_num [toInt]
  have h5 : ⌊driftNote.duration * 44100⌋ = 30869 := by
    simp only [driftNote, roundDouble_070]
    norm_num
  exact ⟨h1, h2, h3, h4, h5⟩

/-! ## Theorems: the factor divisions -/

/-- The decay division of line 211 never has a zero divisor inside the loop. -/
theorem decay_divisor_ne_zero (n : Note) (i num den : ℤ) (hi : i < note_finish n)
    (hb : branch n i = Branch.decay num den) : den ≠ 0 := by
  unfold branch at hb
  split at hb
  · cases hb
  · split at hb
    · rename_i hd
      cases hb
      have h2 := hd.2
      unfold decay_start at h2
      omega
    · cases hb

/-- Inside the loop, a factor is in [0, 1] whenever its branch is Decay, and
whenever its branch is Attack and `attack_duration` is not zero. -/
theorem factor_unit_interval (n : Note) (i : ℤ) (hi : note_start n ≤ i ∧ i < note_finish n)
    (hp : phase n i = Phase.Decay ∨ (phase n i = Phase.Attack ∧ attack_duration n ≠ 0)) :
    ∃ f : ℚ, (branch n i).factor = some f ∧ 0 ≤ f ∧ f ≤ 1 := by
  have key : ∀ a b : ℤ, 0 ≤ a → a ≤ b → b ≠ 0 →
      ∃ f : ℚ, fdiv (a : ℚ) (b : ℚ) = some f ∧ 0 ≤ f ∧ f ≤ 1 := by
    intro a b h0 hab hb
    have hbpos : (0 : ℚ) < (b : ℚ) := by
      have : 0 < b := by omega
      exact_mod_cast this
    have ha0 : (0 : ℚ) ≤ (a : ℚ) := by exact_mod_cast h0
    have hab' : (a : ℚ) ≤ (b : ℚ) := by exact_mod_cast hab
    refine ⟨(a : ℚ) / (b : ℚ), ?_, div_nonneg ha0 (le_of_lt hbpos), (div_le_one hbpos).mpr hab'⟩
    simp [fdiv, ne_of_gt hbpos]
  obtain ⟨h1, h2⟩ := hi
  unfold phase at hp
  by_cases ha : n.attack > 0 ∧ i ≤ attack_finish n
  · rw [branch_attack n i ha] at hp ⊢
    rcases hp with hp | ⟨_, hne⟩
    · cases hp
    · have h3 := ha.2
      unfold attack_finish at h3
      exact key _ _ (by omega) (by omega) hne
  · by_cases hd : n.decay > 0 ∧ i ≥ decay_start n
    · rw [branch_decay n i ha hd]
      have h3 := hd.2
      unfold decay_start at h3
      exact key _ _ (by omega) (by omega) (by omega)
    · rw [branch_sustain n i ha hd] at hp
      rcases hp with hp | ⟨hp, _⟩ <;> cases hp

theorem clickNote_timing :
    note_start clickNote = 0 ∧ note_finish clickNote = 44100 ∧
    attack_duration clickNote = 0 ∧ attack_finish clickNote = 0 := by
  norm_num [note_start, note_finish, attack_finish, attack_duration, toInt, fmul, fadd, roundDouble_q16, clickNote,
    WAVFILE_SAMPLES_PER_SECOND]

theorem clickNote_branch : branch clickNote 0 = Branch.attack 0 0 := by
  obtain ⟨h1, _, h3, h4⟩ := clickNote_timing
  rw [branch_attack clickNote 0 ⟨by norm_num [clickNote], by rw [h4]⟩, h1, h3]
  rfl

/-- C8, the code at the failing input: for `clickNote`, `attack_duration` is 0,
yet sample 0, inside the loop range, takes the Attack branch, whose factor
division is 0 / 0; no finite factor and no sample value result. -/
theorem attack_divides_by_zero :
    attack_duration clickNote = 0 ∧
    (note_start clickNote ≤ 0 ∧ 0 < note_finish clickNote) ∧
    phase clickNote 0 = Phase.Attack ∧
    (branch clickNote 0).divisor = some 0 ∧
    (branch clickNote 0).factor = none ∧
    writeSample clickNote 0 0 0 = none := by
  obtain ⟨h1, h2, h3, _⟩ := clickNote_timing
  have hb := clickNote_branch
  refine ⟨h3, ⟨by rw [h1], by rw [h2]; norm_num⟩, ?_, ?_, ?_, ?_⟩
  · unfold phase
    rw [hb]
    rfl
  · rw [hb]
    rfl
  · rw [hb]
    simp [Branch.factor, fdiv]
  · unfold writeSample
    rw [hb]
    simp [mix, Branch.factor, fdiv]

/-- C9, the code at the failing input: `clickNote` satisfies the data model and
sample 0 is in its loop range and in the Attack phase, but the factor computed
there is no number of [0, 1]. -/
theorem attack_factor_outside_unit_interval :
    (0 ≤ clickNote.begin ∧ 0 < clickNote.duration ∧
      0 ≤ clickNote.attack ∧ clickNote.attack ≤ clickNote.duration ∧
      0 ≤ clickNote.decay ∧ clickNote.decay ≤ clickNote.duration) ∧
    (note_start clickNote ≤ 0 ∧ 0 < note_finish clickNote) ∧
    phase clickNote 0 = Phase.Attack ∧
    ¬ ∃ f : ℚ, (branch clickNote 0).factor = some f ∧ 0 ≤ f ∧ f ≤ 1 := by
  obtain ⟨h1, h2, _, _⟩ := clickNote_timing
  have hb := clickNote_branch
  refine ⟨by norm_num [clickNote], ⟨by rw [h1], by rw [h2]; norm_num⟩, ?_, ?_⟩
  · unfold phase
    rw [hb]
    rfl
  · rw [hb]
    rintro ⟨f, hf, _⟩
    simp [Branch.factor, fdiv] at hf

/-! ## Theorems: the sample range of a note -/

theorem mem_loopIndices (n : Note) (i : ℤ) :
    i ∈ loopIndices n ↔ note_start n ≤ i ∧ i < note_finish n := by
  unfold loopIndices
  simp only [List.mem_map, List.mem_range]
  constructor
  · rintro ⟨k, hk, rfl⟩
    omega
  · rintro ⟨h1, h2⟩
    refine ⟨(i - note_start n).toNat, ?_, ?_⟩ <;> omega

/-! ## Theorems: invalid pitch -/

/-- With a valid letter, `get_freq` adds whatever `accidental_ctoi` returns. -/
theorem get_freq_valid_letter (n : Note) (hl : 65 ≤ n.name ∧ n.name ≤ 71) :
    get_freq n = some (440 * SEMITONE_RATIO ^
      ((n.octave - 4) * 12 + specTable n.name + accidental_ctoi n.accidental)) := by
  obtain ⟨b, o, nm, ac, d, atk, dc⟩ := n
  obtain ⟨h1, h2⟩ := hl
  simp only at h1 h2
  interval_cases nm <;>
    simp [get_freq, readAt, note_ctoi, SEMITONE_SCALE, SEMITONES_PER_OCTAVE, specTable]

/-- With a letter outside 'A'..'G' the table is read at index −1, outside the
array: the behaviour is undefined, no error is reported. -/
theorem get_freq_invalid_letter (n : Note) (hl : ¬ (65 ≤ n.name ∧ n.name ≤ 71)) :
    note_ctoi n.name = -1 ∧ readAt SEMITONE_SCALE (note_ctoi n.name) = none ∧
    get_freq n = none := by
  have h : ¬ (n.name > 64 ∧ n.name < 72) := by
    intro h
    exact hl ⟨by omega, by omega⟩
  have e : note_ctoi n.name = -1 := by simp only [note_ctoi, if_neg h]
  have r : readAt SEMITONE_SCALE (note_ctoi n.name) = none := by
    rw [e]
    simp [readAt]
  refine ⟨e, r, ?_⟩
  simp only [get_freq, r, Option.map_none']

/-- C11 fails as stated: for A in octave 4 with the accidental character 'x',
`get_freq` returns a frequency (two semitones below 440) and reports nothing. -/
theorem get_freq_invalid_accidental_returns :
    ¬ (oddAccidentalNote.accidental = 98 ∨ oddAccidentalNote.accidental = 32 ∨
      oddAccidentalNote.accidental = 35) ∧
    get_freq oddAccidentalNote = some (440 * SEMITONE_RATIO ^ (-2 : ℤ)) ∧
    ∃ f : ℚ, get_freq oddAccidentalNote = some f ∧ 0 < f := by
  have h := get_freq_valid_letter oddAccidentalNote (by simp [oddAccidentalNote])
  have e : (oddAccidentalNote.octave - 4) * 12 + specTable oddAccidentalNote.name +
      accidental_ctoi oddAccidentalNote.accidental = -2 := by
    simp [oddAccidentalNote, specTable, accidental_ctoi]
  rw [e] at h
  refine ⟨by simp [oddAccidentalNote], h, _, h, ?_⟩
  have := semitone_ratio_zpow_pos (-2)
  positivity

/-- C11, amended: `note_ctoi` returns `c − 65` for 'A'..'G' and −1 otherwise,
`accidental_ctoi` returns −1, 0, 1 for 'b', ' ', '#' and −2 otherwise, and
`get_freq` does not check either result: for a valid letter and an accidental
that is none of 'b', ' ', '#' it returns the frequency with delta −2. -/
theorem pitch_codes_unchecked (n : Note) (c : ℤ) (hl : 65 ≤ n.name ∧ n.name ≤ 71)
    (ha : n.accidental ≠ 98 ∧ n.accidental ≠ 32 ∧ n.accidental ≠ 35) :
    get_freq n = some (440 * SEMITONE_RATIO ^ ((n.octave - 4) * 12 + specTable n.name + -2)) ∧
    ((65 ≤ c ∧ c ≤ 71) → note_ctoi c = c - 65) ∧
    (¬ (65 ≤ c ∧ c ≤ 71) → note_ctoi c = -1) ∧
    accidental_ctoi 98 = -1 ∧ accidental_ctoi 32 = 0 ∧ accidental_ctoi 35 = 1 ∧
    (c ≠ 98 ∧ c ≠ 32 ∧ c ≠ 35 → accidental_ctoi c = -2) := by
  have hacc : ∀ x : ℤ, x ≠ 98 ∧ x ≠ 32 ∧ x ≠ 35 → accidental_ctoi x = -2 := by
    intro x hx
    simp only [accidental_ctoi, if_neg hx.1, if_neg hx.2.1, if_neg hx.2.2]
  refine ⟨?_, ?_, ?_, by simp [accidental_ctoi], by simp [accidental_ctoi],
    by simp [accidental_ctoi], hacc c⟩
  · rw [get_freq_valid_letter n hl, hacc n.accidental ha]
  · intro h
    have h' : c > 64 ∧ c < 72 := ⟨by omega, by omega⟩
    simp only [note_ctoi, if_pos h']
  · intro h
    have h' : ¬ (c > 64 ∧ c < 72) := by
      intro h2
      exact h ⟨by omega, by omega⟩
    simp only [note_ctoi, if_neg h']

theorem pitch_codes_unchecked_witness :
    get_freq oddAccidentalNote = some (440 * SEMITONE_RATIO ^
      ((oddAccidentalNote.octave - 4) * 12 + specTable oddAccidentalNote.name + -2)) ∧
    note_ctoi 72 = -1 ∧ accidental_ctoi 72 = -2 :=
  have h := pitch_codes_unchecked oddAccidentalNote 72 (by simp [oddAccidentalNote])
    (by simp [oddAccidentalNote])
  ⟨h.1, h.2.2.1 (by omega), h.2.2.2.2.2.2 (by omega)⟩

/-! ## Theorems: the sustain mix and the 16-bit store -/

theorem toInt_between (x : ℚ) (a b : ℤ) (ha : a ≤ 0) (hb : 0 ≤ b)
    (hax : (a : ℚ) ≤ x) (hxb : x ≤ (b : ℚ)) : a ≤ toInt x ∧ toInt x ≤ b := by
  unfold toInt
  by_cases h : 0 ≤ x
  · rw [if_pos h]
    have h0 : 0 ≤ ⌊x⌋ := Int.floor_nonneg.mpr h
    have h1 : (⌊x⌋ : ℚ) ≤ (b : ℚ) := le_trans (Int.floor_le x) hxb
    have h2 : ⌊x⌋ ≤ b := by exact_mod_cast h1
    exact ⟨by omega, h2⟩
  · rw [if_neg h]
    have h0 : ⌈x⌉ ≤ 0 := Int.ceil_le.mpr (by push_cast; linarith)
    have h1 : (a : ℚ) ≤ (⌈x⌉ : ℚ) := le_trans hax (Int.le_ceil x)
    have h2 : a ≤ ⌈x⌉ := by exact_mod_cast h1
    exact ⟨h2, by omega⟩

theorem toInt_intCast (k : ℤ) : toInt (k : ℚ) = k := by
  unfold toInt
  split <;> simp

theorem toShort_of_between (x : ℚ) (hlo : (-32768 : ℚ) ≤ x) (hhi : x ≤ 32767) :
    toShort x = some (toInt x) := by
  have h := toInt_between x (-32768) 32767 (by norm_num) (by norm_num)
    (by push_cast; exact hlo) (by push_cast; exact hhi)
  simp only [toShort, if_pos h]

theorem volume_eq : volume = 31129 := by
  have e : ((VOLUME_MAX : ℤ) : ℚ) * (4278419646001971 / 4503599627370496) = 4278419646001971 / 137438953472 := by
    norm_num [VOLUME_MAX]
  simp only [volume, fmul, roundDouble_095, e, roundDouble_volume]
  norm_num [toInt]

/-- A write in the sustain branch, when the average is in the `short` range. -/
theorem writeSample_sustain (n : Note) (i existing : ℤ) (s : ℚ)
    (hb : branch n i = Branch.sustain)
    (hlo : (-32768 : ℚ) ≤ averageMix existing s) (hhi : averageMix existing s ≤ 32767) :
    writeSample n i existing s = some (toInt (averageMix existing s)) := by
  have hm : mix existing s Branch.sustain = some (averageMix existing s) := by
    simp only [mix, averageMix]
    norm_num
  have ht := toShort_of_between _ hlo hhi
  have hr := toShort_range _ _ ht
  unfold writeSample
  rw [hb, hm]
  simp only [Option.some_bind, ht, Option.map_some', normalize_short _ hr]

theorem branch_of_zero_envelope (n : Note) (i : ℤ) (ha : n.attack = 0) (hd : n.decay = 0) :
    branch n i = Branch.sustain := by
  apply branch_sustain
  · rw [ha]
    intro h
    exact absurd h.1 (lt_irrefl 0)
  · rw [hd]
    intro h
    exact absurd h.1 (lt_irrefl 0)

/-- C17: with `attack = 0` and `decay = 0` every sample index is Sustain: no
factor is computed and the write uses the straight average
`(existing + s)·0.5`. -/
theorem zero_envelope_sustain (n : Note) (i existing : ℤ) (s : ℚ)
    (ha : n.attack = 0) (hd : n.decay = 0) :
    phase n i = Phase.Sustain ∧ (branch n i).divisor = none ∧ (branch n i).factor = none ∧
    mix existing s (branch n i) = some (((existing : ℚ) + s) * (1 / 2)) := by
  have hb := branch_of_zero_envelope n i ha hd
  unfold phase
  rw [hb]
  refine ⟨rfl, rfl, rfl, ?_⟩
  simp only [mix]
  norm_num

theorem zero_envelope_sustain_witness :
    phase plainNote 7 = Phase.Sustain ∧ (branch plainNote 7).divisor = none ∧
    (branch plainNote 7).factor = none ∧
    mix 10 20 (branch plainNote 7) = some ((((10 : ℤ) : ℚ) + 20) * (1 / 2)) :=
  zero_envelope_sustain plainNote 7 10 20 rfl rfl

/-- C19: `volume` is 31129, and for a stored sample in the 16-bit range and a
new sample of magnitude at most `volume`, the sustain mix `(existing + s)·0.5`
is strictly inside [−32768, 32767]: the write is defined, stores the truncated
mix, and neither comparison of lines 220 and 221 is true. -/
theorem sustain_mix_in_range (n : Note) (i existing : ℤ) (s : ℚ)
    (hp : phase n i = Phase.Sustain)
    (he : -32768 ≤ existing ∧ existing ≤ 32767) (hs : |s| ≤ (volume : ℚ)) :
    volume = 31129 ∧
    (-32768 : ℚ) < ((existing : ℚ) + s) * (1 / 2) ∧ ((existing : ℚ) + s) * (1 / 2) < 32767 ∧
    ∃ w : ℤ, writeSample n i existing s = some w ∧ w = toInt (((existing : ℚ) + s) * (1 / 2)) ∧
      -32768 < w ∧ w < 32767 ∧ ¬ (w > VOLUME_MAX) ∧ ¬ (w < -1 * VOLUME_MAX) := by
  have hb : branch n i = Branch.sustain := by
    unfold phase at hp
    cases h : branch n i with
    | attack a b => rw [h] at hp; cases hp
    | decay a b => rw [h] at hp; cases hp
    | sustain => rfl
  rw [volume_eq] at hs
  obtain ⟨hs1, hs2⟩ := abs_le.mp hs
  obtain ⟨he1, he2⟩ := he
  have he1' : (-32768 : ℚ) ≤ (existing : ℚ) := by exact_mod_cast he1
  have he2' : (existing : ℚ) ≤ 32767 := by exact_mod_cast he2
  push_cast at hs1 hs2
  have hlo : (-31949 : ℚ) ≤ ((existing : ℚ) + s) * (1 / 2) := by linarith
  have hhi : ((existing : ℚ) + s) * (1 / 2) ≤ 31948 := by linarith
  have hw := writeSample_sustain n i existing s hb (by unfold averageMix; linarith)
    (by unfold averageMix; linarith)
  have hr := toInt_between (((existing : ℚ) + s) * (1 / 2)) (-31949) 31948 (by norm_num)
    (by norm_num) (by push_cast; exact hlo) (by push_cast; exact hhi)
  refine ⟨volume_eq, by linarith, by linarith, _, hw, rfl, ?_, ?_, ?_, ?_⟩
  · unfold averageMix; omega
  · unfold averageMix; omega
  · unfold averageMix; simp only [VOLUME_MAX]; omega
  · unfold averageMix; simp only [VOLUME_MAX]; omega

theorem sustain_mix_in_range_witness :
    volume = 31129 ∧
    (-32768 : ℚ) < (((32767 : ℤ) : ℚ) + 31129) * (1 / 2) ∧
    (((32767 : ℤ) : ℚ) + 31129) * (1 / 2) < 32767 ∧
    ∃ w : ℤ, writeSample plainNote 7 32767 31129 = some w ∧
      w = toInt ((((32767 : ℤ) : ℚ) + 31129) * (1 / 2)) ∧
      -32768 < w ∧ w < 32767 ∧ ¬ (w > VOLUME_MAX) ∧ ¬ (w < -1 * VOLUME_MAX) :=
  sustain_mix_in_range plainNote 7 32767 31129
    (by unfold phase; rw [branch_of_zero_envelope plainNote 7 rfl rfl]; rfl)
    (by norm_num) (by rw [volume_eq]; norm_num)

/-- C13 fails as stated: two sustain writes of amplitude 3 to a zero sample
store 1 and then 2, not 3·0.5 = 1.5 and ((3·0.5) + 3)·0.5 = 2.25. -/
theorem sustain_writes_not_exact :
    phase plainNote 0 = Phase.Sustain ∧
    writeSample plainNote 0 0 3 = some 1 ∧ ((1 : ℤ) : ℚ) ≠ 3 * (1 / 2) ∧
    writeSample plainNote 0 1 3 = some 2 ∧ ((2 : ℤ) : ℚ) ≠ ((3 * (1 / 2)) + 3) * (1 / 2) := by
  have hb := branch_of_zero_envelope plainNote 0 rfl rfl
  have h1 := writeSample_sustain plainNote 0 0 3 hb (by norm_num [averageMix])
    (by norm_num [averageMix])
  have h2 := writeSample_sustain plainNote 0 1 3 hb (by norm_num [averageMix])
    (by norm_num [averageMix])
  have e1 : toInt (averageMix ((0 : ℤ) : ℚ) 3) = 1 := by norm_num [averageMix, toInt, fmul, fadd, roundDouble_q16]
  have e2 : toInt (averageMix ((1 : ℤ) : ℚ) 3) = 2 := by norm_num [averageMix, toInt, fmul, fadd, roundDouble_q16]
  rw [e1] at h1
  rw [e2] at h2
  refine ⟨?_, h1, by norm_num, h2, by norm_num⟩
  unfold phase
  rw [hb]
  rfl

/-- C13, amended: when two notes each write an amplitude `v` of magnitude at
most `volume` in the Sustain phase to the same initially-zero sample, the stored
sample is `v·0.5` truncated toward zero after the first write and
`(first + v)·0.5` truncated toward zero after the second, `first` being the
sample stored by the first write; when `v` is an integer multiple of 4 these
are exactly `v·0.5` and `((v·0.5) + v)·0.5`. -/
theorem sustain_writes_truncate (n m : Note) (i : ℤ) (v : ℚ)
    (hn : phase n i = Phase.Sustain) (hm : phase m i = Phase.Sustain)
    (hv : |v| ≤ (volume : ℚ)) :
    ∃ first second : ℤ,
      writeSample n i 0 v = some first ∧ first = toInt (v * (1 / 2)) ∧
      writeSample m i first v = some second ∧
      second = toInt (((first : ℚ) + v) * (1 / 2)) ∧
      (∀ k : ℤ, v = ((4 * k : ℤ) : ℚ) →
        (first : ℚ) = v * (1 / 2) ∧ (second : ℚ) = ((v * (1 / 2)) + v) * (1 / 2)) := by
  have sus : ∀ n : Note, phase n i = Phase.Sustain → branch n i = Branch.sustain := by
    intro n hp
    unfold phase at hp
    cases h : branch n i with
    | attack a b => rw [h] at hp; cases hp
    | decay a b => rw [h] at hp; cases hp
    | sustain => rfl
  rw [volume_eq] at hv
  obtain ⟨hv1, hv2⟩ := abs_le.mp hv
  push_cast at hv1 hv2
  have h1 := writeSample_sustain n i 0 v (sus n hn) (by unfold averageMix; push_cast; linarith)
    (by unfold averageMix; push_cast; linarith)
  have e1 : averageMix ((0 : ℤ) : ℚ) v = v * (1 / 2) := by
    unfold averageMix
    push_cast
    ring
  rw [e1] at h1
  have hr := toInt_between (v * (1 / 2)) (-15565) 15565 (by norm_num) (by norm_num)
    (by push_cast; linarith) (by push_cast; linarith)
  have hr1 : (-15565 : ℚ) ≤ ((toInt (v * (1 / 2)) : ℤ) : ℚ) := by exact_mod_cast hr.1
  have hr2 : ((toInt (v * (1 / 2)) : ℤ) : ℚ) ≤ 15565 := by exact_mod_cast hr.2
  have h2 := writeSample_sustain m i (toInt (v * (1 / 2))) v (sus m hm)
    (by unfold averageMix; linarith) (by unfold averageMix; linarith)
  refine ⟨_, _, h1, rfl, h2, rfl, ?_⟩
  intro k hk
  have f1 : toInt (v * (1 / 2)) = 2 * k := by
    have : v * (1 / 2) = ((2 * k : ℤ) : ℚ) := by
      rw [hk]
      push_cast
      ring
    rw [this, toInt_intCast]
  have f2 : toInt (averageMix ((toInt (v * (1 / 2)) : ℤ) : ℚ) v) = 3 * k := by
    have : averageMix ((toInt (v * (1 / 2)) : ℤ) : ℚ) v = ((3 * k : ℤ) : ℚ) := by
      rw [f1, hk]
      unfold averageMix
      push_cast
      ring
    rw [this, toInt_intCast]
  rw [f2, f1, hk]
  push_cast
  constructor <;> ring

theorem sustain_writes_truncate_witness :
    ∃ first second : ℤ,
      writeSample plainNote 0 0 8 = some first ∧ first = toInt (8 * (1 / 2)) ∧
      writeSample plainNote 0 first 8 = some second ∧
      second = toInt (((first : ℚ) + 8) * (1 / 2)) ∧
      (∀ k : ℤ, (8 : ℚ) = ((4 * k : ℤ) : ℚ) →
        (first : ℚ) = 8 * (1 / 2) ∧ (second : ℚ) = ((8 * (1 / 2)) + 8) * (1 / 2)) :=
  have hp : phase plainNote 0 = Phase.Sustain := by
    unfold phase
    rw [branch_of_zero_envelope plainNote 0 rfl rfl]
    rfl
  sustain_writes_truncate plainNote plainNote 0 8 hp hp (by rw [volume_eq]; norm_num)

/-- C20: with 32767 stored, a new sample 31129 and the factor 0.2, the gentle mix
`(existing + s·f)·(0.95 − 0.5·f)` is 33143.88, above 32767; the loop body
reaches it at sample 2 of `attackNote`, where the conversion to `short` at
line 208 is undefined, before lines 220 and 221. -/
theorem gentle_mix_exceeds_short :
    ∃ existing : ℤ, ∃ s f : ℚ,
      (-32768 ≤ existing ∧ existing ≤ 32767) ∧ |s| ≤ 31129 ∧ (0 ≤ f ∧ f ≤ 1) ∧
      ((existing : ℚ) + s * f) * (95 / 100 - 5 / 10 * f) > 32767 ∧
      (branch attackNote 2).factor = some f ∧
      mix existing s (branch attackNote 2) =
        some (((existing : ℚ) + s * f) * (95 / 100 - 5 / 10 * f)) ∧
      toShort (((existing : ℚ) + s * f) * (95 / 100 - 5 / 10 * f)) = none ∧
      writeSample attackNote 2 existing s = none := by
  have hb : branch attackNote 2 = Branch.attack 2 10 := by
    rw [branch_attack attackNote 2 (by
      norm_num [attackNote, attack_finish, note_start, attack_duration, toInt, fmul, fadd, roundDouble_q16,
        WAVFILE_SAMPLES_PER_SECOND])]
    norm_num [attackNote, note_start, attack_duration, toInt, fmul, fadd, roundDouble_q16, WAVFILE_SAMPLES_PER_SECOND]
  have hf : (Branch.attack 2 10).factor = some (2 / 10) := by
    norm_num [Branch.factor, fdiv]
  have hm : mix 32767 31129 (Branch.attack 2 10) = some (828597 / 25) := by
    norm_num [mix, Branch.factor, fdiv]
  have hv : (((32767 : ℤ) : ℚ) + 31129 * (2 / 10)) * (95 / 100 - 5 / 10 * (2 / 10)) = 828597 / 25 := by
    norm_num
  have ht : toShort (828597 / 25) = none := by
    norm_num [toShort, toInt, fmul, fadd, roundDouble_q16]
  refine ⟨32767, 31129, 2 / 10, by norm_num, by norm_num [abs_le], by norm_num, ?_, ?_, ?_, ?_, ?_⟩
  · rw [hv]; norm_num
  · rw [hb, hf]
  · rw [hb, hm, hv]
  · rw [hv, ht]
  · simp only [writeSample, hb, hm, Option.some_bind, ht, Option.map_none']

/-! ## Theorems: the attack ramp -/

theorem toInt_pos (x : ℚ) (h : 0 < toInt x) : 0 < x := by
  by_contra hx
  have hx' : x ≤ 0 := not_lt.mp hx
  unfold toInt at h
  by_cases h0 : 0 ≤ x
  · rw [if_pos h0] at h
    have : x = 0 := le_antisymm hx' h0
    rw [this] at h
    simp at h
  · rw [if_neg h0] at h
    have : ⌈x⌉ ≤ 0 := Int.ceil_le.mpr (by push_cast; exact hx')
    omega

theorem attack_pos_of_duration_pos (n : Note) (h : 0 < attack_duration n) : n.attack > 0 := by
  have h1 := toInt_pos _ h
  have hw : (0 : ℚ) < (WAVFILE_SAMPLES_PER_SECOND : ℚ) := by
    norm_num [WAVFILE_SAMPLES_PER_SECOND]
  by_contra hn
  have hn' : n.attack ≤ 0 := not_lt.mp hn
  have : fmul n.attack (WAVFILE_SAMPLES_PER_SECOND : ℚ) ≤ 0 :=
    roundDouble_nonpos _ (mul_nonpos_of_nonpos_of_nonneg hn' (le_of_lt hw))
  linarith

/-- C15: for a note with positive `attack_duration`, the sample at `note_start`
is Attack with factor 0, the attack factor is strictly increasing over the
attack window, and the sample one before `attack_finish` is Attack with factor
`(attack_duration − 1) / attack_duration`, less than 1. -/
theorem attack_ramp (n : Note) (h : 0 < attack_duration n) :
    (phase n (note_start n) = Phase.Attack ∧ (branch n (note_start n)).factor = some 0) ∧
    (∀ i j : ℤ, note_start n ≤ i → i < j → j ≤ attack_finish n →
      ∃ fi fj : ℚ, phase n i = Phase.Attack ∧ phase n j = Phase.Attack ∧
        (branch n i).factor = some fi ∧ (branch n j).factor = some fj ∧ fi < fj) ∧
    (phase n (attack_finish n - 1) = Phase.Attack ∧
      (branch n (attack_finish n - 1)).factor =
        some (((attack_duration n - 1 : ℤ) : ℚ) / (attack_duration n : ℚ)) ∧
      ((attack_duration n - 1 : ℤ) : ℚ) / (attack_duration n : ℚ) < 1) := by
  have ha := attack_pos_of_duration_pos n h
  have hd : (0 : ℚ) < (attack_duration n : ℚ) := by exact_mod_cast h
  have hd0 : (attack_duration n : ℚ) ≠ 0 := ne_of_gt hd
  have key : ∀ i : ℤ, i ≤ attack_finish n →
      phase n i = Phase.Attack ∧
      (branch n i).factor = some (((i - note_start n : ℤ) : ℚ) / (attack_duration n : ℚ)) := by
    intro i hi
    unfold phase
    rw [branch_attack n i ⟨ha, hi⟩]
    refine ⟨rfl, ?_⟩
    simp only [Branch.factor, fdiv, if_neg hd0]
  have hfin : attack_finish n = note_start n + attack_duration n := rfl
  refine ⟨?_, ?_, ?_⟩
  · obtain ⟨h1, h2⟩ := key (note_start n) (by omega)
    refine ⟨h1, ?_⟩
    rw [h2]
    simp
  · intro i j _ hij hj
    obtain ⟨h1, h2⟩ := key i (by omega)
    obtain ⟨h3, h4⟩ := key j hj
    refine ⟨_, _, h1, h3, h2, h4, ?_⟩
    apply div_lt_div_of_pos_right _ hd
    have : i - note_start n < j - note_start n := by omega
    exact_mod_cast this
  · obtain ⟨h1, h2⟩ := key (attack_finish n - 1) (by omega)
    have e : attack_finish n - 1 - note_start n = attack_duration n - 1 := by omega
    rw [e] at h2
    refine ⟨h1, h2, ?_⟩
    rw [div_lt_one hd]
    have : attack_duration n - 1 < attack_duration n := by omega
    exact_mod_cast this

theorem scoreNote_timing :
    note_start scoreNote = 0 ∧ attack_duration scoreNote = 4410 ∧
    attack_finish scoreNote = 4410 := by
  have e : (3602879701896397 / 36028797018963968 : ℚ) * ((44100 : ℤ) : ℚ) = 39721748713407776925 / 9007199254740992 := by
    norm_num
  have h1 : note_start scoreNote = 0 := by
    norm_num [note_start, toInt, fmul, roundDouble_q16, scoreNote, WAVFILE_SAMPLES_PER_SECOND]
  have h2 : attack_duration scoreNote = 4410 := by
    simp only [attack_duration, fmul, scoreNote, roundDouble_010, WAVFILE_SAMPLES_PER_SECOND, e,
      roundDouble_attack]
    norm_num [toInt]
  refine ⟨h1, h2, ?_⟩
  rw [attack_finish, h1, h2]
  norm_num

theorem attack_ramp_witness :
    attack_duration scoreNote = 4410 ∧
    (phase scoreNote 0 = Phase.Attack ∧ (branch scoreNote 0).factor = some 0) ∧
    (phase scoreNote 4409 = Phase.Attack ∧
      (branch scoreNote 4409).factor = some (4409 / 4410) ∧ (4409 / 4410 : ℚ) < 1) := by
  obtain ⟨h1, h2, h3⟩ := scoreNote_timing
  have h := attack_ramp scoreNote (by rw [h2]; norm_num)
  rw [h1, h2, h3] at h
  norm_num at h
  refine ⟨h2, h.1, h.2.2.1, ?_, by norm_num⟩
  have := h.2.2.2
  norm_num
  exact this

/-! ## Theorems: the sample loop on the waveform -/

theorem readAt_natCast (wf : List ℤ) (k : ℕ) : readAt wf (k : ℤ) = wf.get? k := by
  simp [readAt]

theorem readAt_eq_some (wf : List ℤ) (i e : ℤ) (h : readAt wf i = some e) :
    0 ≤ i ∧ i < (wf.length : ℤ) := by
  unfold readAt at h
  split at h
  · rename_i h0
    have := List.get?_eq_some.mp h
    obtain ⟨hlt, _⟩ := this
    omega
  · cases h

theorem readAt_defined (wf : List ℤ) (i : ℤ) (h : 0 ≤ i ∧ i < (wf.length : ℤ)) :
    ∃ e : ℤ, readAt wf i = some e ∧ e ∈ wf := by
  have hlt : i.toNat < wf.length := by omega
  refine ⟨wf.get ⟨i.toNat, hlt⟩, ?_, List.get_mem wf i.toNat hlt⟩
  simp only [readAt, if_pos h.1]
  exact List.get?_eq_get hlt

/-- One iteration reads `waveform[i]`, writes the new sample there, and leaves
every other element and the length as they were. -/
theorem renderSample_some (sinF : ℚ → ℚ) (vol : ℤ) (n : Note) (fr : ℚ) (wf wf' : List ℤ)
    (i : ℤ) (h : renderSample sinF vol n fr wf i = some wf') :
    ∃ e w : ℤ, readAt wf i = some e ∧
      writeSample n i e (newSample sinF vol fr i) = some w ∧
      wf' = wf.set i.toNat w ∧
      wf'.length = wf.length ∧ readAt wf' i = some w ∧
      ∀ j : ℤ, j ≠ i → readAt wf' j = readAt wf j := by
  unfold renderSample at h
  cases he : readAt wf i with
  | none => rw [he] at h; cases h
  | some e =>
    rw [he] at h
    simp only [Option.some_bind] at h
    cases hw : writeSample n i e (newSample sinF vol fr i) with
    | none => rw [hw] at h; cases h
    | some w =>
      rw [hw] at h
      simp only [Option.some_bind] at h
      obtain ⟨h0, hlt⟩ := readAt_eq_some wf i e he
      unfold writeAt at h
      rw [if_pos ⟨h0, hlt⟩] at h
      cases h
      refine ⟨e, w, rfl, hw, rfl, List.length_set _ _ _, ?_, ?_⟩
      · simp only [readAt, if_pos h0]
        rw [List.get?_eq_getElem?, List.getElem?_set_self (by omega)]
      · intro j hj
        unfold readAt
        by_cases hj0 : 0 ≤ j
        · simp only [if_pos hj0]
          rw [List.get?_eq_getElem?, List.get?_eq_getElem?, List.getElem?_set_ne]
          omega
        · simp only [if_neg hj0]

/-- The sample loop over a list of indices keeps the length of the waveform and
every element at an index that is not in the list. -/
theorem renderLoop_frame (sinF : ℚ → ℚ) (vol : ℤ) (n : Note) (fr : ℚ) (l : List ℤ) :
    ∀ wf wf' : List ℤ, l.foldlM (renderSample sinF vol n fr) wf = some wf' →
      wf'.length = wf.length ∧ ∀ j : ℤ, j ∉ l → readAt wf' j = readAt wf j := by
  induction l with
  | nil =>
    intro wf wf' h
    simp only [List.foldlM_nil] at h
    cases h
    exact ⟨rfl, fun _ _ => rfl⟩
  | cons a t ih =>
    intro wf wf' h
    rw [List.foldlM_cons] at h
    cases h1 : renderSample sinF vol n fr wf a with
    | none => rw [h1] at h; cases h
    | some wf1 =>
      rw [h1] at h
      obtain ⟨_, _, _, _, _, hlen, _, hframe⟩ := renderSample_some sinF vol n fr wf wf1 a h1
      obtain ⟨hlen2, hframe2⟩ := ih wf1 wf' h
      refine ⟨by rw [hlen2, hlen], ?_⟩
      intro j hj
      have hja : j ≠ a := fun e => hj (by rw [e]; exact List.mem_cons_self a t)
      have hjt : j ∉ t := fun e => hj (List.mem_cons_of_mem a e)
      rw [hframe2 j hjt, hframe j hja]

/-- When no index is visited twice, the element at a visited index is what one
iteration stores there from the element the loop started with. -/
theorem renderLoop_value (sinF : ℚ → ℚ) (vol : ℤ) (n : Note) (fr : ℚ) (l : List ℤ)
    (hnd : l.Nodup) :
    ∀ wf wf' : List ℤ, l.foldlM (renderSample sinF vol n fr) wf = some wf' →
      ∀ i ∈ l, ∃ e w : ℤ, readAt wf i = some e ∧
        writeSample n i e (newSample sinF vol fr i) = some w ∧ readAt wf' i = some w := by
  induction l with
  | nil =>
    intro wf wf' _ i hi
    cases hi
  | cons a t ih =>
    intro wf wf' h i hi
    rw [List.foldlM_cons] at h
    obtain ⟨hat, hndt⟩ := List.nodup_cons.mp hnd
    cases h1 : renderSample sinF vol n fr wf a with
    | none => rw [h1] at h; cases h
    | some wf1 =>
      rw [h1] at h
      obtain ⟨e, w, he, hw, _, _, hnew, hframe⟩ := renderSample_some sinF vol n fr wf wf1 a h1
      by_cases hia : i = a
      · subst hia
        refine ⟨e, w, he, hw, ?_⟩
        rw [(renderLoop_frame sinF vol n fr t wf1 wf' h).2 i hat, hnew]
      · have hit : i ∈ t := by
          rcases List.mem_cons.mp hi with h2 | h2
          · exact absurd h2 hia
          · exact h2
        obtain ⟨e2, w2, he2, hw2, hr2⟩ := ih hndt wf1 wf' h i hit
        rw [hframe i hia] at he2
        exact ⟨e2, w2, he2, hw2, hr2⟩

/-- The sample loop is defined when every index is inside the waveform, every
element is a `short`, and every write from a `short` is defined. -/
theorem renderLoop_defined (sinF : ℚ → ℚ) (vol : ℤ) (n : Note) (fr : ℚ) (l : List ℤ) :
    ∀ wf : List ℤ, (∀ i ∈ l, 0 ≤ i ∧ i < (wf.length : ℤ)) →
      (∀ x ∈ wf, -32768 ≤ x ∧ x ≤ 32767) →
      (∀ i ∈ l, ∀ e : ℤ, -32768 ≤ e ∧ e ≤ 32767 →
        ∃ w : ℤ, writeSample n i e (newSample sinF vol fr i) = some w) →
      ∃ wf' : List ℤ, l.foldlM (renderSample sinF vol n fr) wf = some wf' ∧
        ∀ x ∈ wf', -32768 ≤ x ∧ x ≤ 32767 := by
  induction l with
  | nil =>
    intro wf _ hs _
    exact ⟨wf, rfl, hs⟩
  | cons a t ih =>
    intro wf hin hs hw
    obtain ⟨e, he, hmem⟩ := readAt_defined wf a (hin a (List.mem_cons_self a t))
    obtain ⟨w, hwa⟩ := hw a (List.mem_cons_self a t) e (hs e hmem)
    have hin_a := hin a (List.mem_cons_self a t)
    have h1 : renderSample sinF vol n fr wf a = some (wf.set a.toNat w) := by
      simp only [renderSample, he, Option.some_bind, hwa, writeAt, if_pos hin_a]
    have hwr := writeSample_stored n a e _ w hwa
    obtain ⟨wf', h2, hs'⟩ := ih (wf.set a.toNat w)
      (fun i hi => by
        rw [List.length_set]
        exact hin i (List.mem_cons_of_mem a hi))
      (fun x hx => by
        rcases List.mem_or_eq_of_mem_set hx with h3 | h3
        · exact hs x h3
        · rw [h3]; exact ⟨hwr.1, hwr.2.1⟩)
      (fun i hi => hw i (List.mem_cons_of_mem a hi))
    refine ⟨wf', ?_, hs'⟩
    rw [List.foldlM_cons, h1]
    exact h2

theorem loopIndices_nodup (n : Note) : (loopIndices n).Nodup := by
  unfold loopIndices
  apply List.Nodup.map _ (List.nodup_range _)
  intro a b h
  simp only at h
  omega

theorem tinyNote_indices : loopIndices tinyNote = [0, 1] := by
  have h1 : note_start tinyNote = 0 := by
    norm_num [note_start, toInt, fmul, fadd, roundDouble_q16, tinyNote, WAVFILE_SAMPLES_PER_SECOND]
  have h2 : note_finish tinyNote = 2 := by
    rw [note_finish, h1]
    norm_num [toInt, fmul, fadd, roundDouble_q16, tinyNote, WAVFILE_SAMPLES_PER_SECOND]
  unfold loopIndices
  rw [h1, h2]
  rfl

/-- With a `sin` that is 0 everywhere, `tinyNote` halves the first two samples
of the waveform 5, 6, 7. -/
theorem tinyNote_render : renderNote (fun _ => 0) volume [5, 6, 7] tinyNote = some [2, 3, 7] := by
  have hf : get_freq tinyNote = some (440 * SEMITONE_RATIO ^ specOffset tinyNote) :=
    get_freq_valid tinyNote (by simp [tinyNote]) (by simp [tinyNote])
  have hs : ∀ (fr : ℚ) (i : ℤ), newSample (fun _ => 0) volume fr i = 0 := by
    intro fr i
    simp [newSample]
  have w0 : writeSample tinyNote 0 5 0 = some 2 := by
    rw [writeSample_sustain tinyNote 0 5 0 (branch_of_zero_envelope tinyNote 0 rfl rfl)
      (by norm_num [averageMix]) (by norm_num [averageMix])]
    norm_num [averageMix, toInt, fmul, fadd, roundDouble_q16]
  have w1 : writeSample tinyNote 1 6 0 = some 3 := by
    rw [writeSample_sustain tinyNote 1 6 0 (branch_of_zero_envelope tinyNote 1 rfl rfl)
      (by norm_num [averageMix]) (by norm_num [averageMix])]
    norm_num [averageMix, toInt, fmul, fadd, roundDouble_q16]
  have st0 : ∀ fr : ℚ, renderSample (fun _ => 0) volume tinyNote fr [5, 6, 7] 0 = some [2, 6, 7] := by
    intro fr
    have r0 : readAt [5, 6, 7] 0 = some 5 := by simp [readAt]
    have s0 : writeAt [5, 6, 7] 0 2 = some [2, 6, 7] := by simp [writeAt]
    simp only [renderSample, hs, r0, Option.some_bind, w0, s0]
  have st1 : ∀ fr : ℚ, renderSample (fun _ => 0) volume tinyNote fr [2, 6, 7] 1 = some [2, 3, 7] := by
    intro fr
    have r1 : readAt [2, 6, 7] 1 = some 6 := by simp [readAt]
    have s1 : writeAt [2, 6, 7] 1 3 = some [2, 3, 7] := by simp [writeAt]
    simp only [renderSample, hs, r1, Option.some_bind, w1, s1]
  unfold renderNote
  rw [hf, tinyNote_indices, Option.some_bind, List.foldlM_cons, st0, Option.bind_eq_bind,
    Option.some_bind, List.foldlM_cons, st1, Option.bind_eq_bind, Option.some_bind,
    List.foldlM_nil]
  rfl

/-- C12: rendering a note keeps the length of the waveform and changes no
sample at an index below `note_start` or at or above `note_finish`. -/
theorem renderNote_frame (sinF : ℚ → ℚ) (vol : ℤ) (wf wf' : List ℤ) (n : Note)
    (h : renderNote sinF vol wf n = some wf') :
    wf'.length = wf.length ∧
    (∀ j : ℤ, j < note_start n ∨ note_finish n ≤ j → readAt wf' j = readAt wf j) ∧
    (∀ k : ℕ, (k : ℤ) < note_start n ∨ note_finish n ≤ (k : ℤ) → wf'.get? k = wf.get? k) := by
  unfold renderNote at h
  cases hf : get_freq n with
  | none => rw [hf] at h; cases h
  | some fr =>
    rw [hf] at h
    simp only [Option.some_bind] at h
    obtain ⟨hlen, hframe⟩ := renderLoop_frame sinF vol n fr (loopIndices n) wf wf' h
    have hout : ∀ j : ℤ, j < note_start n ∨ note_finish n ≤ j → j ∉ loopIndices n := by
      intro j hj hmem
      have := (mem_loopIndices n j).mp hmem
      omega
    refine ⟨hlen, fun j hj => hframe j (hout j hj), ?_⟩
    intro k hk
    rw [← readAt_natCast, ← readAt_natCast]
    exact hframe k (hout k hk)

theorem renderNote_frame_witness :
    renderNote (fun _ => 0) volume [5, 6, 7] tinyNote = some [2, 3, 7] ∧
    ([2, 3, 7] : List ℤ).length = ([5, 6, 7] : List ℤ).length ∧
    (∀ j : ℤ, j < note_start tinyNote ∨ note_finish tinyNote ≤ j →
      readAt [2, 3, 7] j = readAt [5, 6, 7] j) ∧
    (∀ k : ℕ, (k : ℤ) < note_start tinyNote ∨ note_finish tinyNote ≤ (k : ℤ) →
      ([2, 3, 7] : List ℤ).get? k = ([5, 6, 7] : List ℤ).get? k) :=
  ⟨tinyNote_render, renderNote_frame (fun _ => 0) volume [5, 6, 7] [2, 3, 7] tinyNote
    tinyNote_render⟩

/-! ## Theorems: the order of the notes -/

/-- A note whose loop visits the single index `i`. -/
theorem renderNote_single (sinF : ℚ → ℚ) (vol : ℤ) (wf : List ℤ) (n : Note) (fr : ℚ)
    (i e w : ℤ) (hf : get_freq n = some fr) (hl : loopIndices n = [i])
    (he : readAt wf i = some e)
    (hw : writeSample n i e (newSample sinF vol fr i) = some w) :
    renderNote sinF vol wf n = some (wf.set i.toNat w) := by
  have hin := readAt_eq_some wf i e he
  have h1 : renderSample sinF vol n fr wf i = some (wf.set i.toNat w) := by
    simp only [renderSample, he, Option.some_bind, hw, writeAt, if_pos hin]
  unfold renderNote
  rw [hf, hl, Option.some_bind, List.foldlM_cons, h1]
  rfl

theorem blip_indices : loopIndices sustainBlip = [0] ∧ loopIndices attackBlip = [0] := by
  have h1 : note_start sustainBlip = 0 := by
    norm_num [note_start, toInt, fmul, fadd, roundDouble_q16, sustainBlip, WAVFILE_SAMPLES_PER_SECOND]
  have h2 : note_finish sustainBlip = 1 := by
    rw [note_finish, h1]
    norm_num [toInt, fmul, fadd, roundDouble_q16, sustainBlip, WAVFILE_SAMPLES_PER_SECOND]
  have h3 : note_start attackBlip = 0 := by
    norm_num [note_start, toInt, fmul, fadd, roundDouble_q16, attackBlip, WAVFILE_SAMPLES_PER_SECOND]
  have h4 : note_finish attackBlip = 1 := by
    rw [note_finish, h3]
    norm_num [toInt, fmul, fadd, roundDouble_q16, attackBlip, WAVFILE_SAMPLES_PER_SECOND]
  constructor
  · unfold loopIndices
    rw [h1, h2]
    rfl
  · unfold loopIndices
    rw [h3, h4]
    rfl

theorem attackBlip_branch : branch attackBlip 0 = Branch.attack 0 1 := by
  rw [branch_attack attackBlip 0 (by
    norm_num [attackBlip, attack_finish, note_start, attack_duration, toInt, fmul, fadd, roundDouble_q16,
      WAVFILE_SAMPLES_PER_SECOND])]
  norm_num [attackBlip, note_start, attack_duration, toInt, fmul, fadd, roundDouble_q16, WAVFILE_SAMPLES_PER_SECOND]

theorem rampNote_branch : branch rampNote 1 = Branch.attack 1 2 := by
  rw [branch_attack rampNote 1 (by
    norm_num [rampNote, attack_finish, note_start, attack_duration, toInt, fmul, fadd, roundDouble_q16,
      WAVFILE_SAMPLES_PER_SECOND])]
  norm_num [rampNote, note_start, attack_duration, toInt, fmul, fadd, roundDouble_q16, WAVFILE_SAMPLES_PER_SECOND]

/-- A write in the attack branch with a non-zero divisor, when the mix value is
in the `short` range. -/
theorem writeSample_attack (n : Note) (i existing num den : ℤ) (s : ℚ)
    (hb : branch n i = Branch.attack num den) (hden : den ≠ 0)
    (hlo : (-32768 : ℚ) ≤ gentleMix existing s ((num : ℚ) / (den : ℚ)))
    (hhi : gentleMix existing s ((num : ℚ) / (den : ℚ)) ≤ 32767) :
    writeSample n i existing s = some (toInt (gentleMix existing s ((num : ℚ) / (den : ℚ)))) := by
  have hden' : (den : ℚ) ≠ 0 := by exact_mod_cast hden
  have hm : mix existing s (Branch.attack num den) =
      some (gentleMix existing s ((num : ℚ) / (den : ℚ))) := by
    simp only [mix, Branch.factor, fdiv, if_neg hden', Option.map_some', gentleMix]
    norm_num
  have ht := toShort_of_between _ hlo hhi
  have hr := toShort_range _ _ ht
  unfold writeSample
  rw [hb, hm]
  simp only [Option.some_bind, ht, Option.map_some', normalize_short _ hr]

/-- C18: the order of rendering is significant. With the waveform holding the
single sample 3, the one-sample notes `sustainBlip` and `attackBlip` overlap on
index 0; rendering `sustainBlip` first leaves 0 there, rendering `attackBlip`
first leaves 1 (the only fact used about `sin` is `sin 0 = 0`). In the loop
body, a Sustain write and an Attack write with factor 1/2 of the same new
sample 1000 to a zero sample leave 700 in one order and 675 in the other. -/
theorem render_order_matters (sinF : ℚ → ℚ) (h0 : sinF 0 = 0) :
    (∃ n m : Note, ∃ wf a b : List ℤ, ∃ i : ℤ,
      (note_start n ≤ i ∧ i < note_finish n) ∧ (note_start m ≤ i ∧ i < note_finish m) ∧
      (renderNote sinF volume wf n).bind (fun w => renderNote sinF volume w m) = some a ∧
      (renderNote sinF volume wf m).bind (fun w => renderNote sinF volume w n) = some b ∧
      readAt a i ≠ readAt b i) ∧
    (phase plainNote 1 = Phase.Sustain ∧ phase rampNote 1 = Phase.Attack ∧
      (branch rampNote 1).factor = some (1 / 2) ∧
      (writeSample plainNote 1 0 1000).bind (fun w => writeSample rampNote 1 w 1000) = some 700 ∧
      (writeSample rampNote 1 0 1000).bind (fun w => writeSample plainNote 1 w 1000) = some 675) := by
  have fS : get_freq sustainBlip = some (440 * SEMITONE_RATIO ^ specOffset sustainBlip) :=
    get_freq_valid sustainBlip (by simp [sustainBlip]) (by simp [sustainBlip])
  have fA : get_freq attackBlip = some (440 * SEMITONE_RATIO ^ specOffset attackBlip) :=
    get_freq_valid attackBlip (by simp [attackBlip]) (by simp [attackBlip])
  have hs : ∀ fr : ℚ, newSample sinF volume fr 0 = 0 := by
    intro fr
    simp [newSample, h0]
  have bS : branch sustainBlip 0 = Branch.sustain := branch_of_zero_envelope sustainBlip 0 rfl rfl
  have bP : branch plainNote 1 = Branch.sustain := branch_of_zero_envelope plainNote 1 rfl rfl
  have one : (1 : ℤ) ≠ 0 := by norm_num
  have two : (2 : ℤ) ≠ 0 := by norm_num
  -- sustainBlip then attackBlip
  have s1 : writeSample sustainBlip 0 3 0 = some 1 := by
    rw [writeSample_sustain sustainBlip 0 3 0 bS (by norm_num [averageMix])
      (by norm_num [averageMix])]
    norm_num [averageMix, toInt, fmul, fadd, roundDouble_q16]
  have a1 : writeSample attackBlip 0 1 0 = some 0 := by
    rw [writeSample_attack attackBlip 0 1 0 1 0 attackBlip_branch one
      (by norm_num [gentleMix]) (by norm_num [gentleMix])]
    norm_num [gentleMix, toInt, fmul, fadd, roundDouble_q16]
  -- attackBlip then sustainBlip
  have a2 : writeSample attackBlip 0 3 0 = some 2 := by
    rw [writeSample_attack attackBlip 0 3 0 1 0 attackBlip_branch one
      (by norm_num [gentleMix]) (by norm_num [gentleMix])]
    norm_num [gentleMix, toInt, fmul, fadd, roundDouble_q16]
  have s2 : writeSample sustainBlip 0 2 0 = some 1 := by
    rw [writeSample_sustain sustainBlip 0 2 0 bS (by norm_num [averageMix])
      (by norm_num [averageMix])]
    norm_num [averageMix, toInt, fmul, fadd, roundDouble_q16]
  have r3 : readAt [3] 0 = some 3 := by simp [readAt]
  have r1 : readAt [1] 0 = some 1 := by simp [readAt]
  have r2 : readAt [2] 0 = some 2 := by simp [readAt]
  have n1 : renderNote sinF volume [3] sustainBlip = some [1] :=
    renderNote_single sinF volume [3] sustainBlip _ 0 3 1 fS blip_indices.1 r3
      (by rw [hs]; exact s1)
  have n2 : renderNote sinF volume [1] attackBlip = some [0] :=
    renderNote_single sinF volume [1] attackBlip _ 0 1 0 fA blip_indices.2 r1
      (by rw [hs]; exact a1)
  have n3 : renderNote sinF volume [3] attackBlip = some [2] :=
    renderNote_single sinF volume [3] attackBlip _ 0 3 2 fA blip_indices.2 r3
      (by rw [hs]; exact a2)
  have n4 : renderNote sinF volume [2] sustainBlip = some [1] :=
    renderNote_single sinF volume [2] sustainBlip _ 0 2 1 fS blip_indices.1 r2
      (by rw [hs]; exact s2)
  have rngS : note_start sustainBlip ≤ 0 ∧ 0 < note_finish sustainBlip :=
    (mem_loopIndices sustainBlip 0).mp (by rw [blip_indices.1]; simp)
  have rngA : note_start attackBlip ≤ 0 ∧ 0 < note_finish attackBlip :=
    (mem_loopIndices attackBlip 0).mp (by rw [blip_indices.2]; simp)
  -- the loop body with a new sample of 1000
  have p1 : writeSample plainNote 1 0 1000 = some 500 := by
    rw [writeSample_sustain plainNote 1 0 1000 bP (by norm_num [averageMix])
      (by norm_num [averageMix])]
    norm_num [averageMix, toInt, fmul, fadd, roundDouble_q16]
  have q1 : writeSample rampNote 1 500 1000 = some 700 := by
    rw [writeSample_attack rampNote 1 500 1 2 1000 rampNote_branch two
      (by norm_num [gentleMix]) (by norm_num [gentleMix])]
    norm_num [gentleMix, toInt, fmul, fadd, roundDouble_q16]
  have q2 : writeSample rampNote 1 0 1000 = some 350 := by
    rw [writeSample_attack rampNote 1 0 1 2 1000 rampNote_branch two
      (by norm_num [gentleMix]) (by norm_num [gentleMix])]
    norm_num [gentleMix, toInt, fmul, fadd, roundDouble_q16]
  have p2 : writeSample plainNote 1 350 1000 = some 675 := by
    rw [writeSample_sustain plainNote 1 350 1000 bP (by norm_num [averageMix])
      (by norm_num [averageMix])]
    norm_num [averageMix, toInt, fmul, fadd, roundDouble_q16]
  refine ⟨⟨sustainBlip, attackBlip, [3], [0], [1], 0, rngS, rngA, ?_, ?_, ?_⟩, ?_, ?_, ?_, ?_, ?_⟩
  · rw [n1, Option.some_bind, n2]
  · rw [n3, Option.some_bind, n4]
  · simp [readAt]
  · unfold phase; rw [bP]; rfl
  · unfold phase; rw [rampNote_branch]; rfl
  · rw [rampNote_branch]; norm_num [Branch.factor, fdiv]
  · rw [p1, Option.some_bind, q1]
  · rw [q2, Option.some_bind, p2]

theorem render_order_matters_witness :
    (∃ n m : Note, ∃ wf a b : List ℤ, ∃ i : ℤ,
      (note_start n ≤ i ∧ i < note_finish n) ∧ (note_start m ≤ i ∧ i < note_finish m) ∧
      (renderNote (fun _ => 0) volume wf n).bind
        (fun w => renderNote (fun _ => 0) volume w m) = some a ∧
      (renderNote (fun _ => 0) volume wf m).bind
        (fun w => renderNote (fun _ => 0) volume w n) = some b ∧
      readAt a i ≠ readAt b i) ∧
    (phase plainNote 1 = Phase.Sustain ∧ phase rampNote 1 = Phase.Attack ∧
      (branch rampNote 1).factor = some (1 / 2) ∧
      (writeSample plainNote 1 0 1000).bind (fun w => writeSample rampNote 1 w 1000) = some 700 ∧
      (writeSample rampNote 1 0 1000).bind (fun w => writeSample plainNote 1 w 1000) = some 675) :=
  render_order_matters (fun _ => 0) rfl

/-! ## Theorems: one note rendered end to end -/

theorem noteA4_timing : note_start (noteA 4) = 0 ∧ note_finish (noteA 4) = 44100 := by
  have h1 : note_start (noteA 4) = 0 := by
    norm_num [note_start, toInt, fmul, fadd, roundDouble_q16, noteA, WAVFILE_SAMPLES_PER_SECOND]
  refine ⟨h1, ?_⟩
  rw [note_finish, h1]
  norm_num [toInt, fmul, fadd, roundDouble_q16, noteA, WAVFILE_SAMPLES_PER_SECOND]

theorem noteA4_freq : get_freq (noteA 4) = some 440 := by
  rw [get_freq_valid (noteA 4) (by simp [noteA]) (by simp [noteA])]
  simp [specOffset, specTable, specDelta, noteA]

theorem samples_total_one : samples_total 1 = 44100 := by
  norm_num [samples_total, toInt, fmul, fadd, roundDouble_q16, WAVFILE_SAMPLES_PER_SECOND]

theorem render_single (sinF : ℚ → ℚ) (T : ℚ) (n : Note) :
    render sinF T [n] =
      renderNote sinF volume (List.replicate (samples_total T).toNat 0) n := by
  unfold render
  rw [List.foldlM_cons]
  simp only [List.foldlM_nil]
  exact bind_pure _

/-- The new sample of the note A4 at index `i`. -/
theorem newSample_A4 (sinF : ℚ → ℚ) (i : ℕ) :
    newSample sinF volume 440 (i : ℤ) =
      31129 * sinF (440 * ((i : ℚ) / 44100) * 2 * M_PI) := by
  simp only [newSample, volume_eq, WAVFILE_SAMPLES_PER_SECOND]
  push_cast
  rfl

/-- What `renderNote` leaves at a visited index of an all-zero waveform. -/
theorem renderNote_value (sinF : ℚ → ℚ) (vol : ℤ) (wf wf' : List ℤ) (n : Note) (fr : ℚ)
    (hf : get_freq n = some fr) (h : renderNote sinF vol wf n = some wf') (i : ℤ)
    (hi : note_start n ≤ i ∧ i < note_finish n) :
    ∃ e w : ℤ, readAt wf i = some e ∧
      writeSample n i e (newSample sinF vol fr i) = some w ∧ readAt wf' i = some w := by
  unfold renderNote at h
  rw [hf, Option.some_bind] at h
  exact renderLoop_value sinF vol n fr (loopIndices n) (loopIndices_nodup n) wf wf' h i
    ((mem_loopIndices n i).mpr hi)

theorem readAt_replicate_zero (k : ℕ) (i : ℕ) (h : i < k) :
    readAt (List.replicate k (0 : ℤ)) (i : ℤ) = some 0 := by
  rw [readAt_natCast, List.get?_eq_getElem?, List.getElem?_replicate, if_pos h]

theorem sin_sub_sin_le (x y : ℝ) : |Real.sin x - Real.sin y| ≤ |x - y| := by
  rw [Real.sin_sub_sin, abs_mul, abs_mul]
  have h1 : |Real.sin ((x - y) / 2)| ≤ |(x - y) / 2| := Real.abs_sin_le_abs
  have h2 : |Real.cos ((x + y) / 2)| ≤ 1 := Real.abs_cos_le_one _
  have h3 : |(x - y) / 2| = |x - y| / 2 := by rw [abs_div]; norm_num
  have h4 : (0 : ℝ) ≤ |Real.sin ((x - y) / 2)| := abs_nonneg _
  have h5 : (0 : ℝ) ≤ |Real.cos ((x + y) / 2)| := abs_nonneg _
  have h6 : |(2 : ℝ)| = 2 := by norm_num
  rw [h6]
  nlinarith

/-- At sample 735 the phase of the 440 Hz sine is 44π/3, where it is √3/2. -/
theorem sin_at_735 : Real.sin (2 * Real.pi * 440 * ((735 : ℕ) : ℝ) / 44100) = √3 / 2 := by
  have e : 2 * Real.pi * 440 * ((735 : ℕ) : ℝ) / 44100 =
      (Real.pi - Real.pi / 3) + ((7 : ℤ) : ℝ) * (2 * Real.pi) := by
    push_cast
    ring
  rw [e, Real.sin_add_int_mul_two_pi, Real.sin_pi_sub, Real.sin_pi_div_three]

theorem sqrt_three_bounds : (17320508 / 10000000 : ℝ) < √3 ∧ √3 < 17320509 / 10000000 := by
  constructor
  · rw [Real.lt_sqrt (by norm_num)]
    norm_num
  · rw [Real.sqrt_lt' (by norm_num)]
    norm_num

/-- The argument the code passes to `sin` at sample 735 is within 10⁻¹⁸ of 44π/3. -/
theorem code_phase_735 :
    |(((440 * ((735 : ℚ) / 44100) * 2 * M_PI : ℚ)) : ℝ) -
      2 * Real.pi * 440 * ((735 : ℕ) : ℝ) / 44100| ≤ 1 / 10 ^ 18 := by
  have h1 := Real.pi_gt_d20
  have h2 := Real.pi_lt_d20
  have e : (((440 * ((735 : ℚ) / 44100) * 2 * M_PI : ℚ)) : ℝ) =
      44 / 3 * (314159265358979323846 / 100000000000000000000 : ℝ) := by
    simp only [M_PI]
    push_cast
    ring
  rw [e, abs_le]
  push_cast
  constructor <;> norm_num at h1 h2 ⊢ <;> linarith

/-- A `sin` within 10⁻⁶ of the real sine returns a value between 0.866024 and
0.866027 at sample 735. -/
theorem sinF_at_735 (sinF : ℚ → ℚ)
    (hacc : ∀ x : ℚ, |((sinF x : ℚ) : ℝ) - Real.sin (x : ℝ)| ≤ 1 / 10 ^ 6) :
    (866024 / 1000000 : ℚ) ≤ sinF (440 * ((735 : ℚ) / 44100) * 2 * M_PI) ∧
    sinF (440 * ((735 : ℚ) / 44100) * 2 * M_PI) ≤ 866027 / 1000000 := by
  have h1 := abs_le.mp (hacc (440 * ((735 : ℚ) / 44100) * 2 * M_PI))
  have h2 := abs_le.mp (le_trans (sin_sub_sin_le _ _) code_phase_735)
  rw [sin_at_735] at h2
  obtain ⟨s1, s2⟩ := sqrt_three_bounds
  have lo : ((866024 / 1000000 : ℚ) : ℝ) ≤
      ((sinF (440 * ((735 : ℚ) / 44100) * 2 * M_PI) : ℚ) : ℝ) := by
    push_cast
    norm_num at h1 h2 ⊢
    linarith [h1.1, h2.1]
  have hi : ((sinF (440 * ((735 : ℚ) / 44100) * 2 * M_PI) : ℚ) : ℝ) ≤
      ((866027 / 1000000 : ℚ) : ℝ) := by
    push_cast
    norm_num at h1 h2 ⊢
    linarith [h1.2, h2.2]
  exact ⟨by exact_mod_cast lo, by exact_mod_cast hi⟩

/-- The value the claim gives for sample 735: 31129.6 · (√3/2) · 0.5 = 13479.51
rounds to 13480. -/
theorem spec_sample_735 :
    round ((95 / 100 : ℝ) * 32768 *
      Real.sin (2 * Real.pi * 440 * ((735 : ℕ) : ℝ) / 44100) * (1 / 2)) = 13480 := by
  rw [sin_at_735, round_eq, Int.floor_eq_iff]
  obtain ⟨s1, s2⟩ := sqrt_three_bounds
  push_cast
  constructor <;> linarith

/-- Rendering the single note A4 (one second, no attack, no decay) into the
one-second zero waveform is defined for any `sin` bounded by 1 + 10⁻⁶, and
leaves at index `i` the truncated half of the new sample. -/
theorem render_A4 (sinF : ℚ → ℚ) (hb : ∀ x : ℚ, |sinF x| ≤ 1 + 1 / 10 ^ 6) :
    ∃ wf : List ℤ, render sinF 1 [noteA 4] = some wf ∧ wf.length = 44100 ∧
      ∀ i : ℕ, i < 44100 →
        wf.get? i = some (toInt (31129 * sinF (440 * ((i : ℚ) / 44100) * 2 * M_PI) * (1 / 2))) := by
  obtain ⟨hst, hfin⟩ := noteA4_timing
  have hsus : ∀ i : ℤ, branch (noteA 4) i = Branch.sustain :=
    fun i => branch_of_zero_envelope (noteA 4) i rfl rfl
  have hsmp : ∀ i : ℤ, |newSample sinF volume 440 i| ≤ 31130 := by
    intro i
    simp only [newSample, volume_eq]
    rw [abs_mul]
    have h1 := hb (440 * ((i : ℚ) / (WAVFILE_SAMPLES_PER_SECOND : ℚ)) * 2 * M_PI)
    have h2 : |((31129 : ℤ) : ℚ)| = 31129 := by norm_num
    rw [h2]
    have h3 := abs_nonneg (sinF (440 * ((i : ℚ) / (WAVFILE_SAMPLES_PER_SECOND : ℚ)) * 2 * M_PI))
    nlinarith
  have hwr : ∀ i e : ℤ, -32768 ≤ e ∧ e ≤ 32767 →
      writeSample (noteA 4) i e (newSample sinF volume 440 i) =
        some (toInt (averageMix e (newSample sinF volume 440 i))) := by
    intro i e he
    obtain ⟨s1, s2⟩ := abs_le.mp (hsmp i)
    have e1 : (-32768 : ℚ) ≤ (e : ℚ) := by exact_mod_cast he.1
    have e2 : (e : ℚ) ≤ 32767 := by exact_mod_cast he.2
    exact writeSample_sustain (noteA 4) i e _ (hsus i) (by unfold averageMix; linarith)
      (by unfold averageMix; linarith)
  have hlen0 : (List.replicate (samples_total 1).toNat (0 : ℤ)).length = 44100 := by
    rw [List.length_replicate, samples_total_one]
    rfl
  obtain ⟨wf, hwf, _⟩ := renderLoop_defined sinF volume (noteA 4) 440 (loopIndices (noteA 4))
    (List.replicate (samples_total 1).toNat 0)
    (fun i hi => by
      have := (mem_loopIndices (noteA 4) i).mp hi
      rw [hlen0]
      omega)
    (fun x hx => by
      rw [List.eq_of_mem_replicate hx]
      norm_num)
    (fun i _ e he => ⟨_, hwr i e he⟩)
  have hrn : renderNote sinF volume (List.replicate (samples_total 1).toNat 0) (noteA 4) =
      some wf := by
    unfold renderNote
    rw [noteA4_freq, Option.some_bind]
    exact hwf
  refine ⟨wf, by rw [render_single, hrn], ?_, ?_⟩
  · rw [(renderLoop_frame sinF volume (noteA 4) 440 _ _ wf hwf).1, hlen0]
  · intro i hi
    obtain ⟨e, w, he, hw, hr⟩ := renderNote_value sinF volume _ wf (noteA 4) 440 noteA4_freq hrn
      (i : ℤ) (by rw [hst, hfin]; omega)
    have hz : readAt (List.replicate (samples_total 1).toNat (0 : ℤ)) (i : ℤ) = some 0 :=
      readAt_replicate_zero _ i (by rw [samples_total_one]; exact hi)
    rw [hz] at he
    have he0 : e = 0 := (Option.some.inj he).symm
    rw [he0, hwr (i : ℤ) 0 (by norm_num)] at hw
    rw [← readAt_natCast, hr, ← Option.some.inj hw, newSample_A4]
    congr 2
    unfold averageMix
    push_cast
    ring

/-- C14 fails as stated: for every `sin` within 10⁻⁶ of the real sine (there is
one), rendering A4 for one second is defined and leaves 13479 at sample 735,
where the claim gives round(0.95 · 32768 · sin(2π·440·735/44100) · 0.5),
clamped, which is 13480. -/
theorem render_A4_not_rounded :
    (∃ sinF : ℚ → ℚ, ∀ x : ℚ, |((sinF x : ℚ) : ℝ) - Real.sin (x : ℝ)| ≤ 1 / 10 ^ 6) ∧
    (∀ sinF : ℚ → ℚ, (∀ x : ℚ, |((sinF x : ℚ) : ℝ) - Real.sin (x : ℝ)| ≤ 1 / 10 ^ 6) →
      ∃ wf : List ℤ, render sinF 1 [noteA 4] = some wf ∧ wf.get? 735 = some 13479 ∧
        max (-32768) (min 32767 (round ((95 / 100 : ℝ) * 32768 *
          Real.sin (2 * Real.pi * 440 * ((735 : ℕ) : ℝ) / 44100) * (1 / 2)))) = 13480 ∧
        wf.get? 735 ≠ some (max (-32768) (min 32767 (round ((95 / 100 : ℝ) * 32768 *
          Real.sin (2 * Real.pi * 440 * ((735 : ℕ) : ℝ) / 44100) * (1 / 2)))))) := by
  constructor
  · have hex : ∀ x : ℚ, ∃ q : ℚ, Real.sin (x : ℝ) - 1 / 10 ^ 6 < (q : ℝ) ∧
        (q : ℝ) < Real.sin (x : ℝ) + 1 / 10 ^ 6 := by
      intro x
      exact exists_rat_btwn (by linarith [show (0 : ℝ) < 1 / 10 ^ 6 by positivity])
    refine ⟨fun x => Classical.choose (hex x), fun x => ?_⟩
    obtain ⟨h1, h2⟩ := Classical.choose_spec (hex x)
    rw [abs_le]
    constructor <;> linarith
  · intro sinF hacc
    have hb : ∀ x : ℚ, |sinF x| ≤ 1 + 1 / 10 ^ 6 := by
      intro x
      have h1 := abs_le.mp (hacc x)
      have h2 := abs_le.mp (Real.abs_sin_le_one (x : ℝ))
      have h3 : |((sinF x : ℚ) : ℝ)| ≤ 1 + 1 / 10 ^ 6 := by
        rw [abs_le]
        constructor <;> linarith [h1.1, h1.2, h2.1, h2.2]
      have h4 : ((|sinF x| : ℚ) : ℝ) ≤ ((1 + 1 / 10 ^ 6 : ℚ) : ℝ) := by
        push_cast
        exact h3
      exact_mod_cast h4
    obtain ⟨wf, hwf, _, hval⟩ := render_A4 sinF hb
    obtain ⟨lo, hi⟩ := sinF_at_735 sinF hacc
    have h735 := hval 735 (by norm_num)
    have hv : toInt (31129 * sinF (440 * (((735 : ℕ) : ℚ) / 44100) * 2 * M_PI) * (1 / 2)) = 13479 := by
      push_cast
      rw [toInt_of_nonneg _ (by linarith), Int.floor_eq_iff]
      push_cast
      constructor <;> linarith
    rw [hv] at h735
    have hs : max (-32768) (min 32767 (round ((95 / 100 : ℝ) * 32768 *
        Real.sin (2 * Real.pi * 440 * ((735 : ℕ) : ℝ) / 44100) * (1 / 2)))) = 13480 := by
      rw [spec_sample_735]
      rfl
    refine ⟨wf, hwf, h735, hs, ?_⟩
    rw [h735, hs]
    intro h
    have := Option.some.inj h
    omega

/-- C14, amended: rendering the single note A4 (natural, begin 0, one second,
attack 0, decay 0) into the zero-initialised one-second waveform produces 44100
samples, and sample `i` is `31129 · sin(440 · (i/44100) · 2 · M_PI) · 0.5` with
its fractional part discarded, 31129 being `0.95 · 32768` with its fractional
part discarded; `sin` is any function with values in [−1, 1]. -/
theorem render_A4_truncates (sinF : ℚ → ℚ) (hsin : ∀ x : ℚ, |sinF x| ≤ 1) :
    volume = 31129 ∧
    ∃ wf : List ℤ, render sinF 1 [noteA 4] = some wf ∧ wf.length = 44100 ∧
      ∀ i : ℕ, i < 44100 →
        wf.get? i = some (toInt (31129 * sinF (440 * ((i : ℚ) / 44100) * 2 * M_PI) * (1 / 2))) :=
  ⟨volume_eq, render_A4 sinF (fun x => le_trans (hsin x) (by norm_num))⟩

theorem render_A4_truncates_witness :
    volume = 31129 ∧
    ∃ wf : List ℤ, render (fun _ => 1) 1 [noteA 4] = some wf ∧ wf.length = 44100 ∧
      ∀ i : ℕ, i < 44100 →
        wf.get? i = some (toInt (31129 * (fun _ => (1 : ℚ)) (440 * ((i : ℚ) / 44100) * 2 * M_PI)
          * (1 / 2))) :=
  render_A4_truncates (fun _ => 1) (fun _ => by norm_num)

/-! ## Theorems: the wave file header -/

theorem wavfile_open_bytes : wavfile_open true = some { bytes := openedBytes, pos := 44 } := by
  rfl

theorem shortsBytes_length (l : List ℤ) : (shortsBytes l).length = 2 * l.length := by
  induction l with
  | nil => rfl
  | cons x xs ih =>
    simp only [shortsBytes, List.length_append, ih, int16Bytes, List.length_cons,
      List.length_nil]
    omega

/-- The file after `wavfile_open`, a write of the bytes `D`, and `wavfile_close`. -/
theorem close_after_write (D : List ℕ) (dl rl : ℤ)
    (hdl : dl = toInt32 (toInt32 (44 + (D.length : ℤ)) - 44))
    (hrl : rl = toInt32 (44 + (D.length : ℤ)) - 8) (hok : -2147483648 ≤ rl) :
    wavfile_close (fwrite { bytes := openedBytes, pos := 44 } D) =
      some { bytes := closedBytes rl dl D, pos := 8 } := by
  have hfl : ftell (fwrite { bytes := openedBytes, pos := 44 } D) = 44 + (D.length : ℤ) := by
    simp [ftell, fwrite]
  unfold wavfile_close
  simp only [close_riff_length, close_data_length, close_file_length, hfl, sizeof_header]
  rw [← hrl, if_pos hok]
  push_cast
  rw [← hdl]
  simp [fwrite, fseek, int32Bytes, openedBytes, closedBytes]

/-- The header read back from a closed file. -/
theorem readHeader_closed (rl dl : ℤ) (D : List ℕ) :
    readHeader (closedBytes rl dl D) =
      { riff_tag := [82, 73, 70, 70]
        riff_length := toInt32 rl
        wave_tag := [87, 65, 86, 69]
        fmt_tag := [102, 109, 116, 32]
        fmt_length := 16
        audio_format := 1
        num_channels := 1
        sample_rate := 44100
        byte_rate := 88200
        block_align := 2
        bits_per_sample := 16
        data_tag := [100, 97, 116, 97]
        data_length := toInt32 dl } := by
  have h32 : ∀ (v : ℤ) (tail : List ℕ) (k : ℕ),
      readInt32 (List.replicate k 0 ++ (int32Bytes v ++ tail)) k = toInt32 v := by
    intro v tail k
    unfold readInt32
    have e : (List.replicate k (0 : ℕ) ++ (int32Bytes v ++ tail)).drop k = int32Bytes v ++ tail := by
      have := List.drop_left (List.replicate k (0 : ℕ)) (int32Bytes v ++ tail)
      rw [List.length_replicate] at this
      exact this
    rw [e]
    simp only [int32Bytes, List.cons_append, List.nil_append]
    unfold toInt32
    omega
  have hdrop : ∀ (bs a : List ℕ) (k : ℕ), a.length = k →
      readInt32 (a ++ bs) k = readInt32 (List.replicate k 0 ++ bs) k := by
    intro bs a k hk
    unfold readInt32
    have e1 : (a ++ bs).drop k = bs := by
      rw [← hk]; exact List.drop_left a bs
    have e2 : (List.replicate k (0 : ℕ) ++ bs).drop k = bs := by
      have := List.drop_left (List.replicate k (0 : ℕ)) bs
      rw [List.length_replicate] at this
      exact this
    rw [e1, e2]
  have hrl : readInt32 (closedBytes rl dl D) 4 = toInt32 rl := by
    have := hdrop (int32Bytes rl ++ ([87, 65, 86, 69, 102, 109, 116, 32, 16, 0, 0, 0,
      1, 0, 1, 0, 68, 172, 0, 0, 136, 88, 1, 0, 2, 0, 16, 0, 100, 97, 116, 97] ++
      int32Bytes dl ++ D)) [82, 73, 70, 70] 4 rfl
    rw [h32] at this
    rw [← this]
    simp [closedBytes]
  have hdl : readInt32 (closedBytes rl dl D) 40 = toInt32 dl := by
    have := hdrop (int32Bytes dl ++ D) ([82, 73, 70, 70] ++ int32Bytes rl ++
      [87, 65, 86, 69, 102, 109, 116, 32, 16, 0, 0, 0,
        1, 0, 1, 0, 68, 172, 0, 0, 136, 88, 1, 0, 2, 0, 16, 0, 100, 97, 116, 97]) 40
      (by simp [int32Bytes])
    rw [h32] at this
    rw [← this]
    simp [closedBytes]
  unfold readHeader
  rw [hrl, hdl]
  simp [closedBytes, int32Bytes, readInt32, readInt16, toInt32, toInt16]

theorem closedBytes_payload (rl dl : ℤ) (D : List ℕ) :
    (closedBytes rl dl D).drop 44 = D ∧ (closedBytes rl dl D).length = 44 + D.length := by
  constructor
  · simp [closedBytes, int32Bytes]
  · simp [closedBytes, int32Bytes]
    omega

/-- A session of the file writer, whatever the number of samples. -/
theorem wavSession_eq (data : List ℤ) (n : ℤ) (h0 : 0 ≤ n) (hlen : n ≤ (data.length : ℤ))
    (hok : -2147483648 ≤ toInt32 (44 + 2 * n) - 8) :
    wavSession data n = some
      { bytes := closedBytes (toInt32 (44 + 2 * n) - 8) (toInt32 (toInt32 (44 + 2 * n) - 44))
          (shortsBytes (data.take n.toNat)),
        pos := 8 } ∧
    ((shortsBytes (data.take n.toNat)).length : ℤ) = 2 * n := by
  have hD : ((shortsBytes (data.take n.toNat)).length : ℤ) = 2 * n := by
    rw [shortsBytes_length, List.length_take]
    have : min n.toNat data.length = n.toNat := by omega
    rw [this]
    push_cast
    omega
  refine ⟨?_, hD⟩
  unfold wavSession
  rw [wavfile_open_bytes, Option.some_bind]
  unfold wavfile_write
  rw [if_pos ⟨h0, hlen⟩, Option.some_bind]
  exact close_after_write _ _ _ (by rw [hD]) (by rw [hD]) hok

theorem toInt32_of_range (v : ℤ) (h : -2147483648 ≤ v ∧ v ≤ 2147483647) : toInt32 v = v := by
  unfold toInt32
  omega

/-- Below 2 GiB the header is consistent: for every number `n ≥ 0` of samples
with `44 + 2·n ≤ 2³¹ − 1`, after `wavfile_open`, one `wavfile_write` of `n`
samples and `wavfile_close`, the file is the 44-byte header followed by the
`2·n` bytes of the samples, the `data_length` field equals `2·n`, the
`riff_length` field equals `36 + data_length`, and the header records
`fmt_length` 16, `audio_format` 1, one channel, 16 bits per sample,
`block_align` 2 and `byte_rate = sample_rate · 2`. -/
theorem wav_header_consistent (data : List ℤ) (n : ℤ) (h0 : 0 ≤ n)
    (hlen : n ≤ (data.length : ℤ)) (hsz : 44 + 2 * n ≤ 2147483647) :
    ∃ f : File, wavSession data n = some f ∧
      (f.bytes.length : ℤ) = 44 + 2 * n ∧
      f.bytes.drop 44 = shortsBytes (data.take n.toNat) ∧
      ((f.bytes.drop 44).length : ℤ) = 2 * n ∧
      (readHeader f.bytes).data_length = 2 * n ∧
      (readHeader f.bytes).riff_length = 36 + (readHeader f.bytes).data_length ∧
      (readHeader f.bytes).fmt_length = 16 ∧
      (readHeader f.bytes).audio_format = 1 ∧
      (readHeader f.bytes).num_channels = 1 ∧
      (readHeader f.bytes).bits_per_sample = 16 ∧
      (readHeader f.bytes).block_align = 2 ∧
      (readHeader f.bytes).sample_rate = WAVFILE_SAMPLES_PER_SECOND ∧
      (readHeader f.bytes).byte_rate = (readHeader f.bytes).sample_rate * 2 := by
  have e1 : toInt32 (44 + 2 * n) = 44 + 2 * n := toInt32_of_range _ (by omega)
  have e2 : toInt32 (44 + 2 * n - 44) = 2 * n := by
    rw [toInt32_of_range _ (by omega)]
    ring
  obtain ⟨h, hD⟩ := wavSession_eq data n h0 hlen (by rw [e1]; omega)
  rw [e1, e2] at h
  obtain ⟨p1, p2⟩ := closedBytes_payload (44 + 2 * n - 8) (2 * n) (shortsBytes (data.take n.toNat))
  have hr := readHeader_closed (44 + 2 * n - 8) (2 * n) (shortsBytes (data.take n.toNat))
  rw [toInt32_of_range (44 + 2 * n - 8) (by omega), toInt32_of_range (2 * n) (by omega)] at hr
  refine ⟨_, h, ?_, p1, ?_, ?_, ?_, ?_, ?_, ?_, ?_, ?_, ?_, ?_⟩
  · rw [p2]
    push_cast
    rw [hD]
  · rw [p1]
    exact hD
  all_goals simp only [hr, WAVFILE_SAMPLES_PER_SECOND]
  all_goals omega

theorem wav_header_consistent_witness :
    ∃ f : File, wavSession [1, -2, 3] 3 = some f ∧
      (f.bytes.length : ℤ) = 44 + 2 * 3 ∧
      f.bytes.drop 44 = shortsBytes (([1, -2, 3] : List ℤ).take (3 : ℤ).toNat) ∧
      ((f.bytes.drop 44).length : ℤ) = 2 * 3 ∧
      (readHeader f.bytes).data_length = 2 * 3 ∧
      (readHeader f.bytes).riff_length = 36 + (readHeader f.bytes).data_length ∧
      (readHeader f.bytes).fmt_length = 16 ∧
      (readHeader f.bytes).audio_format = 1 ∧
      (readHeader f.bytes).num_channels = 1 ∧
      (readHeader f.bytes).bits_per_sample = 16 ∧
      (readHeader f.bytes).block_align = 2 ∧
      (readHeader f.bytes).sample_rate = WAVFILE_SAMPLES_PER_SECOND ∧
      (readHeader f.bytes).byte_rate = (readHeader f.bytes).sample_rate * 2 :=
  wav_header_consistent [1, -2, 3] 3 (by norm_num) (by simp) (by norm_num)

/-! ## Theorems: a note that ends with the waveform -/

theorem edgeNote_timing :
    note_start edgeNote = 5292 ∧ note_finish edgeNote = 30870 ∧
    samples_total edgeTotal = 30869 := by
  have e12 : (1080863910568919 / 9007199254740992 : ℚ) * ((44100 : ℤ) : ℚ) = 11916524614022331975 / 2251799813685248 := by
    norm_num
  have e58 : (5224175567749775 / 9007199254740992 : ℚ) * ((44100 : ℤ) : ℚ) = 57596535634441269375 / 2251799813685248 := by
    norm_num
  have e70 : (((44100 : ℤ) : ℚ)) * (3152519739159347 / 4503599627370496 : ℚ) = 34756530124231800675 / 1125899906842624 := by
    norm_num
  have h1 : note_start edgeNote = 5292 := by
    simp only [note_start, fmul, edgeNote, roundDouble_012, WAVFILE_SAMPLES_PER_SECOND, e12,
      roundDouble_012_samples]
    norm_num [toInt]
  have h2 : note_finish edgeNote = 30870 := by
    rw [note_finish, h1]
    simp only [fmul, edgeNote, roundDouble_058, WAVFILE_SAMPLES_PER_SECOND, e58,
      roundDouble_058_samples]
    norm_num [toInt, fadd, roundDouble_q16]
  have h3 : samples_total edgeTotal = 30869 := by
    simp only [samples_total, fmul, edgeTotal, roundDouble_070, WAVFILE_SAMPLES_PER_SECOND, e70,
      roundDouble_070_samples]
    norm_num [toInt]
  exact ⟨h1, h2, h3⟩

/-- The note `edgeNote` satisfies the precondition for the total duration
`edgeTotal`: it ends exactly at the end of the waveform. -/
theorem edgeNote_precondition :
    0 ≤ edgeNote.begin ∧ 0 < edgeNote.duration ∧
    edgeNote.begin + edgeNote.duration ≤ edgeTotal := by
  simp only [edgeNote, edgeTotal, roundDouble_012, roundDouble_058, roundDouble_070]
  norm_num

theorem readAt_replicate_none (k : ℕ) (i : ℤ) (h : (k : ℤ) ≤ i) :
    readAt (List.replicate k (0 : ℤ)) i = none := by
  have h0 : 0 ≤ i := by omega
  simp only [readAt, if_pos h0]
  rw [List.get?_eq_none]
  rw [List.length_replicate]
  omega

/-- C10, the code at the failing input: the note with begin 0.12 s and duration
0.58 s satisfies the precondition for a total duration of 0.7 s (it begins at 0
or later, lasts, and ends exactly at the total duration), yet `note_finish` is
30870 and `samples_total` is 30869, so the loop visits index 30869, which is
not below `samples_total`: the access to `waveform[30869]` is outside the
array and the render is undefined, whatever `sin` is. -/
theorem note_overruns_waveform :
    (0 ≤ edgeNote.begin ∧ 0 < edgeNote.duration ∧
      edgeNote.begin + edgeNote.duration ≤ edgeTotal) ∧
    note_start edgeNote = 5292 ∧ note_finish edgeNote = 30870 ∧
    samples_total edgeTotal = 30869 ∧
    (30869 ∈ loopIndices edgeNote ∧ ¬ ((30869 : ℤ) < samples_total edgeTotal)) ∧
    readAt (List.replicate (samples_total edgeTotal).toNat 0) 30869 = none ∧
    ∀ sinF : ℚ → ℚ, render sinF edgeTotal [edgeNote] = none := by
  obtain ⟨h1, h2, h3⟩ := edgeNote_timing
  have hmem : (30869 : ℤ) ∈ loopIndices edgeNote :=
    (mem_loopIndices edgeNote 30869).mpr ⟨by rw [h1]; norm_num, by rw [h2]; norm_num⟩
  have hread : readAt (List.replicate (samples_total edgeTotal).toNat 0) 30869 = none :=
    readAt_replicate_none _ _ (by rw [h3]; norm_num)
  refine ⟨edgeNote_precondition, h1, h2, h3, ⟨hmem, by rw [h3]; norm_num⟩, hread, ?_⟩
  intro sinF
  rw [render_single]
  cases hr : renderNote sinF volume (List.replicate (samples_total edgeTotal).toNat 0) edgeNote with
  | none => rfl
  | some wf =>
    have hf := get_freq_valid edgeNote (by simp [edgeNote]) (by simp [edgeNote])
    obtain ⟨e, _, he, _, _⟩ := renderNote_value sinF volume _ wf edgeNote _ hf hr 30869
      ((mem_loopIndices edgeNote 30869).mp hmem)
    rw [hread] at he
    cases he

/-- The sample ranges of the 11 notes of the hardcoded score, as the code
computes them; the tenth note, written with begin 2.55, starts at 112454. -/
theorem notes_timing :
    notes.map (fun n => (note_start n, note_finish n)) =
      [(0, 44100), (11025, 55125), (22050, 66150), (33075, 77175), (44100, 88200),
        (55125, 99225), (66150, 110250), (77175, 121275), (110250, 198450),
        (112454, 200654), (114660, 202860)] ∧
    samples_total total_duration = 220500 := by
  have e255 : (2871044762448691 / 1125899906842624 : ℚ) * ((44100 : ℤ) : ℚ) = 31653268505996818275 / 281474976710656 := by
    norm_num
  have e260 : (5854679515581645 / 2251799813685248 : ℚ) * ((44100 : ℤ) : ℚ) = 64547841659287636125 / 562949953421312 := by
    norm_num
  have s255 : toInt (fmul (roundDouble (255 / 100)) ((44100 : ℤ) : ℚ)) = 112454 := by
    simp only [fmul, roundDouble_255, e255, roundDouble_255_samples]
    norm_num [toInt]
  have s260 : toInt (fmul (roundDouble (260 / 100)) ((44100 : ℤ) : ℚ)) = 114660 := by
    simp only [fmul, roundDouble_260, e260, roundDouble_260_samples]
    norm_num [toInt]
  constructor
  · simp only [notes, List.map, note_start, note_finish, WAVFILE_SAMPLES_PER_SECOND, s255, s260]
    norm_num [toInt, fmul, fadd, roundDouble_q16]
  · norm_num [samples_total, total_duration, toInt, fmul, roundDouble_q16,
      WAVFILE_SAMPLES_PER_SECOND]

/-- Every index the loop visits for a note of the hardcoded score is inside the
waveform of `total_duration = 5.0`. -/
theorem notes_in_bounds (n : Note) (h : n ∈ notes) (i : ℤ) (hi : i ∈ loopIndices n) :
    0 ≤ i ∧ i < samples_total total_duration := by
  obtain ⟨ht, hs⟩ := notes_timing
  have hp : (note_start n, note_finish n) ∈
      [((0 : ℤ), (44100 : ℤ)), (11025, 55125), (22050, 66150), (33075, 77175), (44100, 88200),
        (55125, 99225), (66150, 110250), (77175, 121275), (110250, 198450),
        (112454, 200654), (114660, 202860)] := by
    rw [← ht]
    exact List.mem_map_of_mem (fun n => (note_start n, note_finish n)) h
  have hr := (mem_loopIndices n i).mp hi
  rw [hs]
  simp only [List.mem_cons, List.mem_singleton, Prod.mk.injEq, List.not_mem_nil, or_false] at hp
  rcases hp with h | h | h | h | h | h | h | h | h | h | h <;> omega

end Doremi
